import Mathlib

/-!
# Shallow embedding of `BaseSignalGP` (src/source/SignalGPBase.h)

This file embeds the thread-lifecycle / admission-control core of the
`BaseSignalGP<DERIVED_T, EXEC_STATE_T, TAG_T, CUSTOM_COMPONENT_T>` hardware
host and proves the specified scheduling properties about it.

Modelling conventions:
* `double` priorities are modelled as `ℚ` (priorities are only copied and
  compared, never combined arithmetically, so rationals are a faithful model
  of the non-NaN doubles used for priorities).
* `size_t` ids are modelled as `Nat`; the sentinel `(size_t)-1` used for
  `cur_thread_id` is the explicit constant `2 ^ 64 - 1` (64-bit `size_t`).
* `std::unordered_set<size_t> active_threads` is modelled as `Finset Nat`
  (membership, insertion, erasure and size are the only operations used;
  the one place the set is iterated feeds a `std::priority_queue` ordered by
  the total lexicographic order on `(priority, id)`, so the extraction
  sequence is independent of the unordered-set iteration order and is
  modelled by sorting).
* `emp::vector` / `std::deque` of ids are `List Nat` (front of the deque is
  the head of the list; `push_back`/`emplace_back` append at the tail, the
  vector's `back()`/`pop_back()` work on `List.getLast?`/`List.dropLast`).
* the opaque per-thread execution state is a type parameter `E`, with the
  backend-supplied `exec_state.Clear()` passed as `clear : E → E` and
  `DERIVED_T::InitThread` passed as `initT : E → Nat → E` (per the stated
  backend contract it installs a call frame on the thread's execution
  state); the custom component is an opaque type parameter `K`.
* fallible operations return `Option` / `Except`; the `emp_assert`
  preconditions appear as hypotheses of the theorems (and, for the two
  re-entrancy guards, as checked entry points returning `Except`).
-/

namespace SignalGP

/-- `enum class ThreadState { RUNNING, DEAD, PENDING }`. -/
inductive ThreadState : Type where
  | RUNNING : ThreadState
  | DEAD : ThreadState
  | PENDING : ThreadState
deriving DecidableEq, Repr

/-- `struct Thread { exec_state_t exec_state; double priority; ThreadState run_state; }`. -/
structure Thread (E : Type) where
  exec_state : E
  priority : ℚ
  run_state : ThreadState
deriving DecidableEq, Repr

/-- `Thread::Reset()`: clear the execution state, set `run_state = DEAD`,
`priority = 1.0`. The backend-defined `exec_state.Clear()` is `clear`. -/
def Thread.Reset {E : Type} (clear : E → E) (t : Thread E) : Thread E :=
  { exec_state := clear t.exec_state, priority := 1, run_state := ThreadState.DEAD }

/-- `struct BaseEvent { size_t id; }` (the payload of derived events is
opaque and irrelevant to the host core). -/
structure BaseEvent where
  id : Nat
deriving DecidableEq, Repr

/-- The sentinel `(size_t)-1` stored in `cur_thread_id` while the hardware is
not in the midst of an execution cycle (64-bit `size_t`). -/
def nullThreadID : Nat := 2 ^ 64 - 1

/-- The mutable state of a `BaseSignalGP` hardware unit: every data member of
the C++ class that participates in the thread lifecycle.  `E` is the opaque
execution-state payload type, `K` the opaque custom component type.  (The
`event_lib` pointer and the configurable print closures are external
collaborators with no bearing on the scheduling state and are not part of
the state record.) -/
structure HostState (E K : Type) where
  event_queue : List BaseEvent
  max_active_threads : Nat
  max_thread_space : Nat
  threads : List (Thread E)
  thread_exec_order : List Nat
  active_threads : Finset Nat
  unused_threads : List Nat
  pending_threads : List Nat
  cur_thread_id : Nat
  is_executing : Bool
  custom_component : K
deriving DecidableEq

variable {E K : Type}

/-- Update the thread record at index `i` (out-of-bounds leaves the pool
unchanged; the C++ sites guard the index with `emp_assert(i < threads.size())`). -/
def modifyAt (f : Thread E → Thread E) : Nat → List (Thread E) → List (Thread E)
  | _, [] => []
  | 0, t :: ts => f t :: ts
  | n + 1, t :: ts => t :: modifyAt f n ts

/-- Set the `run_state` of the thread at index `i`. -/
def setRunState (ts : List (Thread E)) (i : Nat) (s : ThreadState) : List (Thread E) :=
  modifyAt (fun t => { t with run_state := s }) i ts

/-- `threads[i].GetPriority()` read through the pool (the default is
irrelevant: every use site is guarded by an in-bounds assertion, which the
theorems carry as hypotheses). -/
def threadPriority (st : HostState E K) (i : Nat) : ℚ :=
  ((st.threads[i]?).map Thread.priority).getD 1

/-- The `run_state` of the thread at index `i`, if `i` is in the pool. -/
def runStateAt (st : HostState E K) (i : Nat) : Option ThreadState :=
  (st.threads[i]?).map Thread.run_state

/-- `BaseSignalGP::ActivateThread(thread_id)`: add the id to the active set
and to the execution order, set the thread running. -/
def activateThread (st : HostState E K) (thread_id : Nat) : HostState E K :=
  { st with
      active_threads := insert thread_id st.active_threads
      thread_exec_order := st.thread_exec_order ++ [thread_id]
      threads := setRunState st.threads thread_id ThreadState.RUNNING }

/-- `BaseSignalGP::KillThread(thread_id)`: erase the id from the active set
and mark the thread dead.  (Deliberately does not touch the execution
order.) -/
def killThread (st : HostState E K) (thread_id : Nat) : HostState E K :=
  { st with
      active_threads := st.active_threads.erase thread_id
      threads := setRunState st.threads thread_id ThreadState.DEAD }

/-- `threads[thread_id].SetDead()` alone (used on rejected pending threads,
which are in no index structure). -/
def setDeadThread (st : HostState E K) (thread_id : Nat) : HostState E K :=
  { st with threads := setRunState st.threads thread_id ThreadState.DEAD }

/-- Phase 1 of `ActivatePendingThreads`: spawn pending threads in order of
arrival while `active_threads.size() < max_active_threads`, popping each
activated id off the pending deque.  The deque is passed as the explicit
recursion argument; the state's `pending_threads` field is kept in sync with
it exactly as the C++ loop pops the deque as it iterates. -/
def phase1Go : HostState E K → List Nat → HostState E K
  | st, [] => st
  | st, thread_id :: rest =>
    if st.active_threads.card < st.max_active_threads then
      phase1Go (activateThread { st with pending_threads := rest } thread_id) rest
    else st

/-- `max_pending_priority`: the running maximum of the priorities of the
remaining pending threads, seeded with the priority of the front of the
deque (the loop in the source then folds `max` over the whole deque). -/
def maxPendingPriority (st : HostState E K) : ℚ :=
  match st.pending_threads with
  | [] => 1
  | f :: _ =>
    st.pending_threads.foldl
      (fun acc i => if threadPriority st i > acc then threadPriority st i else acc)
      (threadPriority st f)

/-- The order in which `std::priority_queue<std::tuple<double, size_t>, _,
std::greater<_>>` pops its elements: lexicographically smallest
`(priority, id)` first. -/
def pairLe (a b : ℚ × Nat) : Prop :=
  a.1 < b.1 ∨ (a.1 = b.1 ∧ a.2 ≤ b.2)

instance : DecidableRel (pairLe) := fun a b =>
  inferInstanceAs (Decidable (a.1 < b.1 ∨ (a.1 = b.1 ∧ a.2 ≤ b.2)))

instance : IsTotal (ℚ × Nat) pairLe :=
  ⟨by
    intro a b
    rcases lt_trichotomy a.1 b.1 with h | h | h
    · exact Or.inl (Or.inl h)
    · rcases le_total a.2 b.2 with h2 | h2
      · exact Or.inl (Or.inr ⟨h, h2⟩)
      · exact Or.inr (Or.inr ⟨h.symm, h2⟩)
    · exact Or.inr (Or.inl h)⟩

instance : IsTrans (ℚ × Nat) pairLe :=
  ⟨by
    rintro a b c (hab | ⟨hab, hab2⟩) (hbc | ⟨hbc, hbc2⟩)
    · exact Or.inl (hab.trans hbc)
    · exact Or.inl (hbc ▸ hab)
    · exact Or.inl (hab ▸ hbc)
    · exact Or.inr ⟨hab.trans hbc, hab2.trans hbc2⟩⟩

/-- The min-heap of `(priority, id)` built in phase 2 of
`ActivatePendingThreads` over the active threads whose priority is strictly
below `max_pending_priority`, presented as the sequence of heap pops: the
elements sorted by the lexicographic order `pairLe`.  The extraction
sequence of the C++ heap is exactly this sorted sequence and does not
depend on the iteration order of the `unordered_set` it is filled from, so
the iteration is modelled by enumerating the pool indices (the fill loop
asserts `active_id < threads.size()`) and keeping those in the active
set. -/
def buildHeap (st : HostState E K) (pstar : ℚ) : List (ℚ × Nat) :=
  List.insertionSort pairLe
    (((List.range st.threads.length).filter
        (fun i => decide (i ∈ st.active_threads) && decide (threadPriority st i < pstar))).map
      (fun i => (threadPriority st i, i)))

/-- Phase 2 of `ActivatePendingThreads`: while the heap and the pending
deque are both non-empty, compare the front pending thread with the heap
top; a strictly greater pending priority evicts (pop heap, kill active,
activate pending, pop pending), otherwise the pending thread is popped and
marked dead with the heap left unchanged. -/
def phase2Go : HostState E K → List (ℚ × Nat) → List Nat → HostState E K
  | st, _, [] => st
  | st, [], _ :: _ => st
  | st, (pq, active_id) :: heapRest, pending_id :: pendRest =>
    if threadPriority st pending_id > threadPriority st active_id then
      phase2Go (activateThread (killThread { st with pending_threads := pendRest } active_id)
        pending_id) heapRest pendRest
    else
      phase2Go (setDeadThread { st with pending_threads := pendRest } pending_id)
        ((pq, active_id) :: heapRest) pendRest

/-- Phase 3 of `ActivatePendingThreads`: any leftover pending threads do not
have sufficient priority; mark each dead and pop it. -/
def phase3Go : HostState E K → List Nat → HostState E K
  | st, [] => st
  | st, pending_id :: rest =>
    phase3Go (setDeadThread { st with pending_threads := rest } pending_id) rest

/-- The state after phase 1 of `ActivatePendingThreads`. -/
def afterPhase1 (st : HostState E K) : HostState E K :=
  phase1Go st st.pending_threads

/-- The state after phase 2 of `ActivatePendingThreads` (the heap is built
over the phase-1 state with the maximum remaining pending priority as the
bound). -/
def afterPhase2 (st : HostState E K) : HostState E K :=
  phase2Go (afterPhase1 st)
    (buildHeap (afterPhase1 st) (maxPendingPriority (afterPhase1 st)))
    (afterPhase1 st).pending_threads

/-- `BaseSignalGP::ActivatePendingThreads()`: early-out on an empty pending
deque, phase 1 (fill spare capacity), early-out if that drained the deque,
then phase 2 (priority eviction) and phase 3 (reject leftovers). -/
def activatePendingThreads (st : HostState E K) : HostState E K :=
  if st.pending_threads = [] then st
  else if (afterPhase1 st).pending_threads = [] then afterPhase1 st
  else phase3Go (afterPhase2 st) (afterPhase2 st).pending_threads

/-- The body shared by both spawn branches of `SpawnThreadWithID` once a
thread id has been secured: `thread.Reset(); thread.SetPriority(priority);
GetHardware().InitThread(thread, module_id); thread.SetPending();
pending_threads.emplace_back(thread_id);`.  `newUnused` is the unused stack
after the pop (or the empty stack in the fresh-thread branch). -/
def commandeerThread (clear : E → E) (initT : E → Nat → E) (st : HostState E K)
    (thread_id module_id : Nat) (priority : ℚ) (newUnused : List Nat) : HostState E K :=
  { st with
      unused_threads := newUnused
      threads := modifyAt
        (fun t => { exec_state := initT (clear t.exec_state) module_id,
                    priority := priority,
                    run_state := ThreadState.PENDING }) thread_id st.threads
      pending_threads := st.pending_threads ++ [thread_id] }

/-- `BaseSignalGP::SpawnThreadWithID(module_id, priority)`: commandeer the
top of the unused stack if it is non-empty, else grow the pool by a fresh
default-constructed thread if there is space, else return `none` leaving the
state untouched.  Returns the spawned id (if any) and the new state. -/
def SpawnThreadWithID (clear : E → E) (initT : E → Nat → E) (e0 : E)
    (st : HostState E K) (module_id : Nat) (priority : ℚ) : Option Nat × HostState E K :=
  match st.unused_threads.getLast? with
  | some thread_id =>
      (some thread_id,
        commandeerThread clear initT st thread_id module_id priority st.unused_threads.dropLast)
  | none =>
      if st.threads.length < st.max_thread_space then
        (some st.threads.length,
          commandeerThread clear initT
            { st with threads := st.threads ++ [⟨e0, 1, ThreadState.DEAD⟩] }
            st.threads.length module_id priority [])
      else (none, st)

/-- `BaseSignalGP::BaseResetState()` (the body after the `!is_executing`
assertion): clear the event queue, `Reset` every thread slot, clear the
execution order / active set / pending deque, rebuild the unused stack as
all ids in reverse index order, clear the current thread id and the
executing flag.  The custom component (and the backend) are untouched. -/
def BaseResetState (clear : E → E) (st : HostState E K) : HostState E K :=
  { st with
      event_queue := []
      threads := st.threads.map (Thread.Reset clear)
      thread_exec_order := []
      active_threads := ∅
      pending_threads := []
      unused_threads := (List.range st.threads.length).reverse
      cur_thread_id := nullThreadID
      is_executing := false }

/-- The abstract error kind for a tick or reset attempted while the
hardware is executing. -/
inductive HostError : Type where
  | REENTRANT_TICK : HostError
deriving DecidableEq, Repr

/-- `BaseResetState` with its `emp_assert(!is_executing, "Cannot reset
hardware while executing.")` precondition made explicit: the assertion
failure is the `REENTRANT_TICK` error. -/
def BaseResetStateChecked (clear : E → E) (st : HostState E K) :
    Except HostError (HostState E K) :=
  if st.is_executing then Except.error HostError.REENTRANT_TICK
  else Except.ok (BaseResetState clear st)

/-- Modelled from the spec: the tick driver `SingleProcess` is an
incomplete stub in the source (its execution loop reads the undeclared
variable `thread_cnt` and the function ends in `emp_assert(false)`), so its
entry is modelled from spec section 4.5: a tick attempted while
`is_executing` is set fails with `REENTRANT_TICK`; otherwise the tick
proceeds (event drain and per-thread execution delegate to the external
event library and backend and are outside this model; the admission step it
performs is the source's `ActivatePendingThreads`). -/
def SingleProcessChecked (st : HostState E K) : Except HostError (HostState E K) :=
  if st.is_executing then Except.error HostError.REENTRANT_TICK
  else Except.ok (activatePendingThreads st)

/-- `BaseSignalGP::GetCurThreadID()`. -/
def GetCurThreadID (st : HostState E K) : Nat := st.cur_thread_id

/-- The freshly constructed hardware state
(`BaseSignalGP(Ptr<event_lib_t>)`): pool of
`min(2 * max_active_threads, max_thread_space)` default-constructed threads,
all ids unused in reverse index order, defaults `max_active_threads = 64`,
`max_thread_space = 512`.  `e0` is the default-constructed execution state
and `k0` the default-constructed custom component. -/
def initialState (e0 : E) (k0 : K) : HostState E K :=
  { event_queue := []
    max_active_threads := 64
    max_thread_space := 512
    threads := List.replicate (if 2 * 64 < 512 then 2 * 64 else 512) ⟨e0, 1, ThreadState.DEAD⟩
    thread_exec_order := []
    active_threads := ∅
    unused_threads := (List.range (if 2 * 64 < 512 then 2 * 64 else 512)).reverse
    pending_threads := []
    cur_thread_id := nullThreadID
    is_executing := false
    custom_component := k0 }

end SignalGP

namespace SignalGP

variable {E K : Type}

/-- Everything a scheduling operation (`ActivateThread`, `KillThread`,
`ActivatePendingThreads`) leaves untouched: the pool size, every thread's
priority and execution-state payload, the unused stack, the event queue, the
current thread id, the executing flag, the configuration bounds and the
custom component.  Scheduling only rewrites `run_state` tags and the
membership of ids in the active set, pending deque and execution order. -/
def SchedPreserves (st st' : HostState E K) : Prop :=
  st'.threads.length = st.threads.length ∧
  (∀ i : Nat, ((st'.threads[i]?).map Thread.priority) = ((st.threads[i]?).map Thread.priority)) ∧
  (∀ i : Nat, ((st'.threads[i]?).map Thread.exec_state) = ((st.threads[i]?).map Thread.exec_state)) ∧
  st'.unused_threads = st.unused_threads ∧
  st'.event_queue = st.event_queue ∧
  st'.cur_thread_id = st.cur_thread_id ∧
  st'.is_executing = st.is_executing ∧
  st'.max_active_threads = st.max_active_threads ∧
  st'.max_thread_space = st.max_thread_space ∧
  st'.custom_component = st.custom_component

/-! ## The state invariant -/

/-- The invariant exactly as the specification states it: a pool id is
RUNNING iff it is in the active set and PENDING iff it is in the pending
deque, every DEAD id is in the unused stack or (transiently) in the
execution order, the three id structures are pairwise disjoint, and the
active set respects `max_active_threads`. -/
def ClaimedStateInvariant (st : HostState E K) : Prop :=
  (∀ i : Nat, i < st.threads.length →
    ((runStateAt st i = some ThreadState.RUNNING ↔ i ∈ st.active_threads) ∧
     (runStateAt st i = some ThreadState.PENDING ↔ i ∈ st.pending_threads) ∧
     (runStateAt st i = some ThreadState.DEAD →
       i ∈ st.unused_threads ∨ i ∈ st.thread_exec_order))) ∧
  (∀ i ∈ st.active_threads, i ∉ st.pending_threads) ∧
  (∀ i ∈ st.active_threads, i ∉ st.unused_threads) ∧
  (∀ i ∈ st.pending_threads, i ∉ st.unused_threads) ∧
  st.active_threads.card ≤ st.max_active_threads

instance (st : HostState E K) : Decidable (ClaimedStateInvariant st) :=
  inferInstanceAs (Decidable
    ((∀ i : Nat, i < st.threads.length →
      ((runStateAt st i = some ThreadState.RUNNING ↔ i ∈ st.active_threads) ∧
       (runStateAt st i = some ThreadState.PENDING ↔ i ∈ st.pending_threads) ∧
       (runStateAt st i = some ThreadState.DEAD →
         i ∈ st.unused_threads ∨ i ∈ st.thread_exec_order))) ∧
    (∀ i ∈ st.active_threads, i ∉ st.pending_threads) ∧
    (∀ i ∈ st.active_threads, i ∉ st.unused_threads) ∧
    (∀ i ∈ st.pending_threads, i ∉ st.unused_threads) ∧
    st.active_threads.card ≤ st.max_active_threads))

/-- The invariant the code actually maintains.  It keeps the RUNNING/PENDING
characterisations, in-bounds ids, nodup stacks, `active ⊆ execution order`
and the `max_active_threads` bound — but for DEAD ids it only guarantees
that every id on the unused stack is DEAD, not the converse: an id rejected
during admission is DEAD yet sits in no index structure until the hardware
is reset. -/
def WFHostState (st : HostState E K) : Prop :=
  (∀ i ∈ st.active_threads, i < st.threads.length) ∧
  (∀ i ∈ st.pending_threads, i < st.threads.length) ∧
  (∀ i ∈ st.unused_threads, i < st.threads.length) ∧
  (∀ i : Nat, i < st.threads.length →
    (runStateAt st i = some ThreadState.RUNNING ↔ i ∈ st.active_threads)) ∧
  (∀ i : Nat, i < st.threads.length →
    (runStateAt st i = some ThreadState.PENDING ↔ i ∈ st.pending_threads)) ∧
  (∀ i ∈ st.unused_threads, runStateAt st i = some ThreadState.DEAD) ∧
  st.pending_threads.Nodup ∧
  st.unused_threads.Nodup ∧
  (∀ i ∈ st.active_threads, i ∈ st.thread_exec_order) ∧
  st.active_threads.card ≤ st.max_active_threads

instance (st : HostState E K) : Decidable (WFHostState st) :=
  inferInstanceAs (Decidable
    ((∀ i ∈ st.active_threads, i < st.threads.length) ∧
    (∀ i ∈ st.pending_threads, i < st.threads.length) ∧
    (∀ i ∈ st.unused_threads, i < st.threads.length) ∧
    (∀ i : Nat, i < st.threads.length →
      (runStateAt st i = some ThreadState.RUNNING ↔ i ∈ st.active_threads)) ∧
    (∀ i : Nat, i < st.threads.length →
      (runStateAt st i = some ThreadState.PENDING ↔ i ∈ st.pending_threads)) ∧
    (∀ i ∈ st.unused_threads, runStateAt st i = some ThreadState.DEAD) ∧
    st.pending_threads.Nodup ∧
    st.unused_threads.Nodup ∧
    (∀ i ∈ st.active_threads, i ∈ st.thread_exec_order) ∧
    st.active_threads.card ≤ st.max_active_threads))

/-! ## Concrete scenarios -/

/-- Spec scenario S3: `max_active = 1`, thread 0 RUNNING at priority 2,
thread 1 PENDING at priority 2 (an equal-priority tie). -/
def tieState : HostState Nat Nat :=
  { event_queue := []
    max_active_threads := 1
    max_thread_space := 512
    threads := [⟨0, 2, ThreadState.RUNNING⟩, ⟨0, 2, ThreadState.PENDING⟩]
    thread_exec_order := [0]
    active_threads := {0}
    unused_threads := []
    pending_threads := [1]
    cur_thread_id := nullThreadID
    is_executing := false
    custom_component := 0 }

/-- Spec scenario S4: `max_active = 2`, active threads 0 (priority 1) and
1 (priority 3), pending thread 2 (priority 2). -/
def prioState : HostState Nat Nat :=
  { event_queue := []
    max_active_threads := 2
    max_thread_space := 512
    threads := [⟨0, 1, ThreadState.RUNNING⟩, ⟨0, 3, ThreadState.RUNNING⟩,
      ⟨0, 2, ThreadState.PENDING⟩]
    thread_exec_order := [0, 1]
    active_threads := {0, 1}
    unused_threads := []
    pending_threads := [2]
    cur_thread_id := nullThreadID
    is_executing := false
    custom_component := 0 }

/-- Spec scenario S1: `max_active = 4`, three pending threads, plenty of
room. -/
def fastState : HostState Nat Nat :=
  { event_queue := []
    max_active_threads := 4
    max_thread_space := 512
    threads := [⟨0, 1, ThreadState.PENDING⟩, ⟨0, 1, ThreadState.PENDING⟩,
      ⟨0, 1, ThreadState.PENDING⟩, ⟨0, 1, ThreadState.DEAD⟩]
    thread_exec_order := []
    active_threads := ∅
    unused_threads := [3]
    pending_threads := [0, 1, 2]
    cur_thread_id := nullThreadID
    is_executing := false
    custom_component := 0 }

/-- A two-slot pool with both threads dead and on the unused stack. -/
def spawnState : HostState Nat Nat :=
  { event_queue := []
    max_active_threads := 64
    max_thread_space := 512
    threads := [⟨5, 1, ThreadState.DEAD⟩, ⟨6, 1, ThreadState.DEAD⟩]
    thread_exec_order := []
    active_threads := ∅
    unused_threads := [1, 0]
    pending_threads := []
    cur_thread_id := nullThreadID
    is_executing := false
    custom_component := 0 }

/-- `max_active = 1`, active thread 0 at priority 5, pending thread 1 at
priority 3: no pending thread outranks any active thread. -/
def monoState : HostState Nat Nat :=
  { event_queue := []
    max_active_threads := 1
    max_thread_space := 512
    threads := [⟨0, 5, ThreadState.RUNNING⟩, ⟨0, 3, ThreadState.PENDING⟩]
    thread_exec_order := [0]
    active_threads := {0}
    unused_threads := []
    pending_threads := [1]
    cur_thread_id := nullThreadID
    is_executing := false
    custom_component := 0 }

/-- A small idle state used to exercise `BaseResetState`. -/
def resetDemoState : HostState Nat Nat :=
  { event_queue := [⟨3⟩]
    max_active_threads := 64
    max_thread_space := 512
    threads := [⟨4, 2, ThreadState.RUNNING⟩, ⟨7, 3, ThreadState.PENDING⟩]
    thread_exec_order := [0]
    active_threads := {0}
    unused_threads := []
    pending_threads := [1]
    cur_thread_id := nullThreadID
    is_executing := false
    custom_component := 9 }

/-! ## Lemmas about pool updates -/

theorem modifyAt_length (f : Thread E → Thread E) (i : Nat) (ts : List (Thread E)) :
    (modifyAt f i ts).length = ts.length := by
  induction ts generalizing i with
  | nil => simp [modifyAt]
  | cons t ts ih =>
    cases i with
    | zero => simp [modifyAt]
    | succ n => simp [modifyAt, ih]

theorem modifyAt_getElem?_self (f : Thread E → Thread E) (i : Nat) (ts : List (Thread E)) :
    (modifyAt f i ts)[i]? = (ts[i]?).map f := by
  induction ts generalizing i with
  | nil => simp [modifyAt]
  | cons t ts ih =>
    cases i with
    | zero => simp [modifyAt]
    | succ n => simpa [modifyAt] using ih n

theorem modifyAt_getElem?_ne (f : Thread E → Thread E) {i j : Nat} (h : j ≠ i)
    (ts : List (Thread E)) : (modifyAt f i ts)[j]? = ts[j]? := by
  induction ts generalizing i j with
  | nil => simp [modifyAt]
  | cons t ts ih =>
    cases i with
    | zero =>
      cases j with
      | zero => exact absurd rfl h
      | succ m => simp [modifyAt]
    | succ n =>
      cases j with
      | zero => simp [modifyAt]
      | succ m => simpa [modifyAt] using ih (fun hh => h (by rw [hh]))

theorem setRunState_length (ts : List (Thread E)) (i : Nat) (s : ThreadState) :
    (setRunState ts i s).length = ts.length := modifyAt_length _ i ts

theorem setRunState_priority (ts : List (Thread E)) (i : Nat) (s : ThreadState) (j : Nat) :
    ((setRunState ts i s)[j]?).map Thread.priority = (ts[j]?).map Thread.priority := by
  by_cases h : j = i
  · subst h
    rw [setRunState, modifyAt_getElem?_self, Option.map_map]
    rfl
  · rw [setRunState, modifyAt_getElem?_ne _ h]

theorem setRunState_exec (ts : List (Thread E)) (i : Nat) (s : ThreadState) (j : Nat) :
    ((setRunState ts i s)[j]?).map Thread.exec_state = (ts[j]?).map Thread.exec_state := by
  by_cases h : j = i
  · subst h
    rw [setRunState, modifyAt_getElem?_self, Option.map_map]
    rfl
  · rw [setRunState, modifyAt_getElem?_ne _ h]

theorem setRunState_getElem?_ne {i j : Nat} (h : j ≠ i) (ts : List (Thread E)) (s : ThreadState) :
    (setRunState ts i s)[j]? = ts[j]? := modifyAt_getElem?_ne _ h ts

theorem setRunState_getElem?_self (ts : List (Thread E)) (i : Nat) (s : ThreadState) :
    (setRunState ts i s)[i]? = (ts[i]?).map (fun t => { t with run_state := s }) :=
  modifyAt_getElem?_self _ i ts

/-! ## The scheduling frame: what activation, kill and admission never touch -/

theorem schedPreserves_refl (st : HostState E K) : SchedPreserves st st :=
  ⟨rfl, fun _ => rfl, fun _ => rfl, rfl, rfl, rfl, rfl, rfl, rfl, rfl⟩

theorem schedPreserves_trans {st1 st2 st3 : HostState E K}
    (h1 : SchedPreserves st1 st2) (h2 : SchedPreserves st2 st3) : SchedPreserves st1 st3 := by
  obtain ⟨a1, b1, c1, d1, e1, f1, g1, h1', i1, j1⟩ := h1
  obtain ⟨a2, b2, c2, d2, e2, f2, g2, h2', i2, j2⟩ := h2
  exact ⟨a2.trans a1, fun i => (b2 i).trans (b1 i), fun i => (c2 i).trans (c1 i),
    d2.trans d1, e2.trans e1, f2.trans f1, g2.trans g1, h2'.trans h1', i2.trans i1, j2.trans j1⟩

theorem schedPreserves_activateThread (st : HostState E K) (tid : Nat) :
    SchedPreserves st (activateThread st tid) :=
  ⟨setRunState_length _ _ _, fun i => setRunState_priority _ _ _ i,
    fun i => setRunState_exec _ _ _ i, rfl, rfl, rfl, rfl, rfl, rfl, rfl⟩

theorem schedPreserves_killThread (st : HostState E K) (tid : Nat) :
    SchedPreserves st (killThread st tid) :=
  ⟨setRunState_length _ _ _, fun i => setRunState_priority _ _ _ i,
    fun i => setRunState_exec _ _ _ i, rfl, rfl, rfl, rfl, rfl, rfl, rfl⟩

theorem schedPreserves_setDeadThread (st : HostState E K) (tid : Nat) :
    SchedPreserves st (setDeadThread st tid) :=
  ⟨setRunState_length _ _ _, fun i => setRunState_priority _ _ _ i,
    fun i => setRunState_exec _ _ _ i, rfl, rfl, rfl, rfl, rfl, rfl, rfl⟩

theorem schedPreserves_setPending (st : HostState E K) (p : List Nat) :
    SchedPreserves st { st with pending_threads := p } :=
  ⟨rfl, fun _ => rfl, fun _ => rfl, rfl, rfl, rfl, rfl, rfl, rfl, rfl⟩

theorem schedPreserves_phase1Go (st : HostState E K) (p : List Nat) :
    SchedPreserves st (phase1Go st p) := by
  induction p generalizing st with
  | nil => exact schedPreserves_refl st
  | cons tid rest ih =>
    rw [phase1Go]
    split
    · exact schedPreserves_trans
        (schedPreserves_trans (schedPreserves_setPending st rest)
          (schedPreserves_activateThread _ tid)) (ih _)
    · exact schedPreserves_refl st

theorem schedPreserves_phase2Go (st : HostState E K) (heap : List (ℚ × Nat)) (p : List Nat) :
    SchedPreserves st (phase2Go st heap p) := by
  induction p generalizing st heap with
  | nil => cases heap <;> exact schedPreserves_refl st
  | cons pid prest ih =>
    cases heap with
    | nil => exact schedPreserves_refl st
    | cons top hrest =>
      obtain ⟨pq, aid⟩ := top
      rw [phase2Go]
      split
      · exact schedPreserves_trans
          (schedPreserves_trans (schedPreserves_setPending st prest)
            (schedPreserves_trans (schedPreserves_killThread _ aid)
              (schedPreserves_activateThread _ pid))) (ih _ _)
      · exact schedPreserves_trans
          (schedPreserves_trans (schedPreserves_setPending st prest)
            (schedPreserves_setDeadThread _ pid)) (ih _ _)

theorem schedPreserves_phase3Go (st : HostState E K) (p : List Nat) :
    SchedPreserves st (phase3Go st p) := by
  induction p generalizing st with
  | nil => exact schedPreserves_refl st
  | cons pid rest ih =>
    rw [phase3Go]
    exact schedPreserves_trans
      (schedPreserves_trans (schedPreserves_setPending st rest)
        (schedPreserves_setDeadThread _ pid)) (ih _)

theorem schedPreserves_activatePendingThreads (st : HostState E K) :
    SchedPreserves st (activatePendingThreads st) := by
  rw [activatePendingThreads]
  split
  · exact schedPreserves_refl st
  · split
    · exact schedPreserves_phase1Go st _
    · exact schedPreserves_trans (schedPreserves_phase1Go st _)
        (schedPreserves_trans (schedPreserves_phase2Go _ _ _) (schedPreserves_phase3Go _ _))

theorem afterPhase1_schedPreserves (st : HostState E K) :
    SchedPreserves st (afterPhase1 st) := schedPreserves_phase1Go st _

theorem afterPhase2_schedPreserves (st : HostState E K) :
    SchedPreserves st (afterPhase2 st) :=
  schedPreserves_trans (afterPhase1_schedPreserves st) (schedPreserves_phase2Go _ _ _)

theorem threadPriority_of_schedPreserves {st st' : HostState E K}
    (h : SchedPreserves st st') (i : Nat) : threadPriority st' i = threadPriority st i := by
  unfold threadPriority
  rw [h.2.1 i]


/-! ## Effect lemmas for the three admission phases -/

theorem phase1Go_pending_subset (st : HostState E K) (p : List Nat)
    (hsync : st.pending_threads = p) :
    ∀ x ∈ (phase1Go st p).pending_threads, x ∈ p := by
  induction p generalizing st with
  | nil => intro x hx; rw [phase1Go] at hx; rw [hsync] at hx; exact hx
  | cons tid rest ih =>
    intro x hx
    rw [phase1Go] at hx
    split at hx
    · exact List.mem_cons_of_mem tid (ih _ rfl x hx)
    · rw [hsync] at hx; exact hx

theorem phase1Go_active_mono (st : HostState E K) (p : List Nat) {a : Nat}
    (ha : a ∈ st.active_threads) : a ∈ (phase1Go st p).active_threads := by
  induction p generalizing st with
  | nil => rw [phase1Go]; exact ha
  | cons tid rest ih =>
    rw [phase1Go]
    split
    · exact ih _ (Finset.mem_insert_of_mem ha)
    · exact ha

theorem phase1Go_getElem?_pres (st : HostState E K) (p : List Nat) {a : Nat}
    (ha : a ∉ p) : (phase1Go st p).threads[a]? = st.threads[a]? := by
  induction p generalizing st with
  | nil => rw [phase1Go]
  | cons tid rest ih =>
    rw [phase1Go]
    split
    · rw [ih _ (fun h => ha (List.mem_cons_of_mem tid h))]
      exact setRunState_getElem?_ne
        (fun h => ha (by rw [h]; exact List.mem_cons_self tid rest)) _ _
    · rfl

theorem phase2Go_active_of_mem (st : HostState E K) (heap : List (ℚ × Nat)) (p : List Nat)
    {a : Nat} (ha : a ∈ st.active_threads) (hh : a ∉ heap.map Prod.snd) :
    a ∈ (phase2Go st heap p).active_threads := by
  induction p generalizing st heap with
  | nil => cases heap <;> exact ha
  | cons pid prest ih =>
    cases heap with
    | nil => exact ha
    | cons top hrest =>
      obtain ⟨pq, aid⟩ := top
      have haid : a ≠ aid := fun h => hh (h ▸ List.mem_cons_self aid (hrest.map Prod.snd))
      have hh' : a ∉ hrest.map Prod.snd := fun h => hh (List.mem_cons_of_mem aid h)
      rw [phase2Go]
      split
      · exact ih _ _ (Finset.mem_insert_of_mem (Finset.mem_erase.mpr ⟨haid, ha⟩)) hh'
      · exact ih _ _ ha hh

theorem phase2Go_active_nonmem (st : HostState E K) (heap : List (ℚ × Nat)) (p : List Nat)
    {a : Nat} (ha : a ∉ st.active_threads) (hp : a ∉ p) :
    a ∉ (phase2Go st heap p).active_threads := by
  induction p generalizing st heap with
  | nil => cases heap <;> exact ha
  | cons pid prest ih =>
    cases heap with
    | nil => exact ha
    | cons top hrest =>
      obtain ⟨pq, aid⟩ := top
      have hpid : a ≠ pid := fun h => hp (h ▸ List.mem_cons_self pid prest)
      have hp' : a ∉ prest := fun h => hp (List.mem_cons_of_mem pid h)
      rw [phase2Go]
      split
      · refine ih _ _ (fun hmem => ?_) hp'
        rcases Finset.mem_insert.mp hmem with h | h
        · exact hpid h
        · exact ha (Finset.mem_of_mem_erase h)
      · exact ih _ _ ha hp'

theorem phase2Go_getElem?_pres (st : HostState E K) (heap : List (ℚ × Nat)) (p : List Nat)
    {a : Nat} (hh : a ∉ heap.map Prod.snd) (hp : a ∉ p) :
    (phase2Go st heap p).threads[a]? = st.threads[a]? := by
  induction p generalizing st heap with
  | nil => cases heap <;> rfl
  | cons pid prest ih =>
    cases heap with
    | nil => rfl
    | cons top hrest =>
      obtain ⟨pq, aid⟩ := top
      have haid : a ≠ aid := fun h => hh (h ▸ List.mem_cons_self aid (hrest.map Prod.snd))
      have hpid : a ≠ pid := fun h => hp (h ▸ List.mem_cons_self pid prest)
      have hp' : a ∉ prest := fun h => hp (List.mem_cons_of_mem pid h)
      have hh' : a ∉ hrest.map Prod.snd := fun h => hh (List.mem_cons_of_mem aid h)
      rw [phase2Go]
      split
      · rw [ih _ _ hh' hp']
        simp only [activateThread, killThread]
        rw [setRunState_getElem?_ne hpid, setRunState_getElem?_ne haid]
      · rw [ih _ _ hh hp']
        simp only [setDeadThread]
        exact setRunState_getElem?_ne hpid _ _

theorem phase2Go_pending_subset (st : HostState E K) (heap : List (ℚ × Nat)) (p : List Nat)
    (hsync : st.pending_threads = p) :
    ∀ x ∈ (phase2Go st heap p).pending_threads, x ∈ p := by
  induction p generalizing st heap with
  | nil =>
    intro x hx
    cases heap <;> exact hsync ▸ (show x ∈ st.pending_threads from hx)
  | cons pid prest ih =>
    intro x hx
    cases heap with
    | nil => exact hsync ▸ (show x ∈ st.pending_threads from hx)
    | cons top hrest =>
      obtain ⟨pq, aid⟩ := top
      rw [phase2Go] at hx
      split at hx
      · exact List.mem_cons_of_mem pid (ih _ _ rfl x hx)
      · exact List.mem_cons_of_mem pid (ih _ _ rfl x hx)

theorem phase2Go_active_subset (st : HostState E K) (heap : List (ℚ × Nat)) (p : List Nat)
    {a : Nat} (ha : a ∈ (phase2Go st heap p).active_threads) :
    a ∈ st.active_threads ∨ a ∈ p := by
  induction p generalizing st heap with
  | nil => cases heap <;> exact Or.inl ha
  | cons pid prest ih =>
    cases heap with
    | nil => exact Or.inl ha
    | cons top hrest =>
      obtain ⟨pq, aid⟩ := top
      rw [phase2Go] at ha
      split at ha
      · rcases ih _ _ ha with h | h
        · rcases Finset.mem_insert.mp h with h' | h'
          · exact Or.inr (h' ▸ List.mem_cons_self pid prest)
          · exact Or.inl (Finset.mem_of_mem_erase h')
        · exact Or.inr (List.mem_cons_of_mem pid h)
      · rcases ih _ _ ha with h | h
        · exact Or.inl h
        · exact Or.inr (List.mem_cons_of_mem pid h)

theorem phase3Go_active_eq (st : HostState E K) (p : List Nat) :
    (phase3Go st p).active_threads = st.active_threads := by
  induction p generalizing st with
  | nil => rw [phase3Go]
  | cons pid rest ih => rw [phase3Go]; exact ih _

theorem phase3Go_getElem?_pres (st : HostState E K) (p : List Nat) {a : Nat}
    (ha : a ∉ p) : (phase3Go st p).threads[a]? = st.threads[a]? := by
  induction p generalizing st with
  | nil => rw [phase3Go]
  | cons pid rest ih =>
    rw [phase3Go]
    rw [ih _ (fun h => ha (List.mem_cons_of_mem pid h))]
    simp only [setDeadThread]
    exact setRunState_getElem?_ne
      (fun h => ha (by rw [h]; exact List.mem_cons_self pid rest)) _ _

theorem phase3Go_pending_empty (st : HostState E K) (p : List Nat)
    (hsync : st.pending_threads = p) : (phase3Go st p).pending_threads = [] := by
  induction p generalizing st with
  | nil => rw [phase3Go]; exact hsync
  | cons pid rest ih => rw [phase3Go]; exact ih _ rfl

theorem phase3Go_dead (st : HostState E K) (p : List Nat) {x : Nat} (hx : x ∈ p)
    (hb : x < st.threads.length) : runStateAt (phase3Go st p) x = some ThreadState.DEAD := by
  induction p generalizing st with
  | nil => cases hx
  | cons pid rest ih =>
    rw [phase3Go]
    by_cases hxr : x ∈ rest
    · exact ih _ hxr (by simpa [setDeadThread, setRunState_length] using hb)
    · have hxp : x = pid := by
        rcases List.mem_cons.mp hx with h | h
        · exact h
        · exact absurd h hxr
      subst hxp
      unfold runStateAt
      rw [phase3Go_getElem?_pres _ _ hxr]
      simp only [setDeadThread]
      rw [setRunState_getElem?_self]
      rw [List.getElem?_eq_getElem hb]
      rfl

/-! ## The phase-2 heap -/

theorem mem_buildHeap (st : HostState E K) (pstar : ℚ) (pr : ℚ) (tid : Nat) :
    (pr, tid) ∈ buildHeap st pstar ↔
      tid < st.threads.length ∧ tid ∈ st.active_threads ∧
      threadPriority st tid < pstar ∧ pr = threadPriority st tid := by
  unfold buildHeap
  rw [List.Perm.mem_iff (List.perm_insertionSort pairLe _)]
  rw [List.mem_map]
  constructor
  · rintro ⟨i, hi, heq⟩
    have h2 : i = tid := congrArg Prod.snd heq
    have h1 : threadPriority st i = pr := congrArg Prod.fst heq
    subst h2
    obtain ⟨hr, hp⟩ := List.mem_filter.mp hi
    simp only [Bool.and_eq_true, decide_eq_true_eq] at hp
    exact ⟨List.mem_range.mp hr, hp.1, hp.2, h1.symm⟩
  · rintro ⟨hb, hmem, hlt, hpr⟩
    refine ⟨tid, ?_, by rw [hpr]⟩
    rw [List.mem_filter]
    simp only [Bool.and_eq_true, decide_eq_true_eq]
    exact ⟨List.mem_range.mpr hb, hmem, hlt⟩

theorem buildHeap_ids_nodup (st : HostState E K) (pstar : ℚ) :
    ((buildHeap st pstar).map Prod.snd).Nodup := by
  unfold buildHeap
  have hperm := (List.perm_insertionSort pairLe
    (((List.range st.threads.length).filter
        (fun i => decide (i ∈ st.active_threads) && decide (threadPriority st i < pstar))).map
      (fun i => (threadPriority st i, i)))).map Prod.snd
  refine hperm.nodup_iff.mpr ?_
  rw [List.map_map]
  have hid : (Prod.snd ∘ fun i => (threadPriority st i, i)) = id := rfl
  rw [hid, List.map_id]
  exact (List.nodup_range _).filter _

theorem buildHeap_sorted (st : HostState E K) (pstar : ℚ) :
    (buildHeap st pstar).Sorted pairLe :=
  List.sorted_insertionSort pairLe _

theorem buildHeap_head_le (st : HostState E K) (pstar pq : ℚ) (aid : Nat)
    (rest : List (ℚ × Nat)) (h : buildHeap st pstar = (pq, aid) :: rest) :
    ∀ x ∈ rest, pq ≤ x.1 := by
  have hs := buildHeap_sorted st pstar
  rw [h] at hs
  intro x hx
  rcases (List.pairwise_cons.mp hs).1 x hx with hlt | ⟨heq, _⟩
  · exact le_of_lt hlt
  · exact le_of_eq heq

/-! ## The maximum pending priority -/

theorem maxFold_le_init (st : HostState E K) (l : List Nat) (acc : ℚ) :
    acc ≤ l.foldl
      (fun a i => if threadPriority st i > a then threadPriority st i else a) acc := by
  induction l generalizing acc with
  | nil => exact le_rfl
  | cons x xs ih =>
    rw [List.foldl_cons]
    refine le_trans ?_ (ih _)
    split
    · exact le_of_lt (by assumption)
    · exact le_rfl

theorem maxFold_mem_le (st : HostState E K) (l : List Nat) (acc : ℚ) {i : Nat} (hi : i ∈ l) :
    threadPriority st i ≤ l.foldl
      (fun a j => if threadPriority st j > a then threadPriority st j else a) acc := by
  induction l generalizing acc with
  | nil => cases hi
  | cons x xs ih =>
    rw [List.foldl_cons]
    rcases List.mem_cons.mp hi with h | h
    · subst h
      refine le_trans ?_ (maxFold_le_init st xs _)
      split
      · exact le_rfl
      · exact le_of_not_lt (by assumption)
    · exact ih _ h

theorem maxFold_eq_init_or_mem (st : HostState E K) (l : List Nat) (acc : ℚ) :
    l.foldl (fun a j => if threadPriority st j > a then threadPriority st j else a) acc = acc ∨
    ∃ i ∈ l, l.foldl (fun a j => if threadPriority st j > a then threadPriority st j else a) acc
      = threadPriority st i := by
  induction l generalizing acc with
  | nil => exact Or.inl rfl
  | cons x xs ih =>
    rw [List.foldl_cons]
    rcases ih (if threadPriority st x > acc then threadPriority st x else acc) with h | ⟨i, hi, h⟩
    · by_cases hc : threadPriority st x > acc
      · exact Or.inr ⟨x, List.mem_cons_self x xs, by rw [h, if_pos hc]⟩
      · exact Or.inl (by rw [h, if_neg hc])
    · exact Or.inr ⟨i, List.mem_cons_of_mem x hi, h⟩

theorem maxPendingPriority_spec (st : HostState E K) (hne : st.pending_threads ≠ []) :
    (∀ i ∈ st.pending_threads, threadPriority st i ≤ maxPendingPriority st) ∧
    ∃ i ∈ st.pending_threads, threadPriority st i = maxPendingPriority st := by
  obtain ⟨f, rest, hp⟩ := List.exists_cons_of_ne_nil hne
  unfold maxPendingPriority
  rw [hp]
  constructor
  · intro i hi
    exact maxFold_mem_le st _ _ hi
  · rcases maxFold_eq_init_or_mem st (f :: rest) (threadPriority st f) with h | ⟨i, hi, h⟩
    · exact ⟨f, List.mem_cons_self f rest, h.symm⟩
    · exact ⟨i, hi, h.symm⟩

/-! ## Glue facts about the assembled admission controller -/

theorem pending_ne_of_afterPhase1_ne (st : HostState E K)
    (h : (afterPhase1 st).pending_threads ≠ []) : st.pending_threads ≠ [] := by
  intro hp
  apply h
  unfold afterPhase1
  rw [hp, phase1Go]
  exact hp

theorem activatePendingThreads_eq_p3 (st : HostState E K)
    (h : (afterPhase1 st).pending_threads ≠ []) :
    activatePendingThreads st =
      phase3Go (afterPhase2 st) (afterPhase2 st).pending_threads := by
  rw [activatePendingThreads, if_neg (pending_ne_of_afterPhase1_ne st h), if_neg h]

theorem buildHeap_ids_subset (st : HostState E K) (pstar : ℚ) {a : Nat}
    (h : a ∈ (buildHeap st pstar).map Prod.snd) :
    a ∈ st.active_threads ∧ threadPriority st a < pstar := by
  obtain ⟨⟨pr, tid⟩, hmem, heq⟩ := List.mem_map.mp h
  have htid : tid = a := heq
  subst htid
  obtain ⟨_, h1, h2, _⟩ := (mem_buildHeap st pstar pr tid).mp hmem
  exact ⟨h1, h2⟩

/-- Any thread that is active when phase 2 begins, is not among the remaining
pending ids and is not in the heap survives the rest of the admission round
with its record untouched. -/
theorem survives_admission (st : HostState E K) {a : Nat}
    (h2 : (afterPhase1 st).pending_threads ≠ [])
    (ha : a ∈ (afterPhase1 st).active_threads)
    (hnp : a ∉ (afterPhase1 st).pending_threads)
    (hnh : a ∉ (buildHeap (afterPhase1 st) (maxPendingPriority (afterPhase1 st))).map Prod.snd) :
    a ∈ (activatePendingThreads st).active_threads ∧
    (activatePendingThreads st).threads[a]? = (afterPhase1 st).threads[a]? := by
  rw [activatePendingThreads_eq_p3 st h2]
  constructor
  · rw [phase3Go_active_eq]
    exact phase2Go_active_of_mem _ _ _ ha hnh
  · have hsub := phase2Go_pending_subset (afterPhase1 st)
      (buildHeap (afterPhase1 st) (maxPendingPriority (afterPhase1 st)))
      (afterPhase1 st).pending_threads rfl
    have hnp2 : a ∉ (afterPhase2 st).pending_threads := fun hmem => hnp (hsub a hmem)
    rw [phase3Go_getElem?_pres _ _ hnp2]
    exact phase2Go_getElem?_pres _ _ _ hnh hnp

/-! ## Claim theorems -/

/-- **C1.**  For every admission round that reaches phase 2 (non-empty
pending deque after phase 1): `max_pending_priority` is exactly the maximum
priority over the remaining pending threads (everything is at most it, and
it is attained by a pending thread); the heap contains exactly the pairs
`(priority, id)` of active threads whose priority is strictly below it;
phase 1 kills no active thread; and every active thread whose priority is
at or above it survives the admission round in the active set with its
record untouched. -/
theorem admission_pstar_heap_immunity (st : HostState E K)
    (h2 : (afterPhase1 st).pending_threads ≠ [])
    (hdisj : ∀ x ∈ (afterPhase1 st).pending_threads, x ∉ (afterPhase1 st).active_threads)
    (hbA : ∀ a ∈ (afterPhase1 st).active_threads, a < (afterPhase1 st).threads.length) :
    ((∀ i ∈ (afterPhase1 st).pending_threads,
        threadPriority (afterPhase1 st) i ≤ maxPendingPriority (afterPhase1 st)) ∧
      (∃ i ∈ (afterPhase1 st).pending_threads,
        threadPriority (afterPhase1 st) i = maxPendingPriority (afterPhase1 st))) ∧
    (∀ pr tid,
      (pr, tid) ∈ buildHeap (afterPhase1 st) (maxPendingPriority (afterPhase1 st)) ↔
        tid ∈ (afterPhase1 st).active_threads ∧
        threadPriority (afterPhase1 st) tid < maxPendingPriority (afterPhase1 st) ∧
        pr = threadPriority (afterPhase1 st) tid) ∧
    (∀ a ∈ st.active_threads, a ∈ (afterPhase1 st).active_threads) ∧
    (∀ a ∈ (afterPhase1 st).active_threads,
      maxPendingPriority (afterPhase1 st) ≤ threadPriority (afterPhase1 st) a →
      a ∈ (activatePendingThreads st).active_threads ∧
      (activatePendingThreads st).threads[a]? = (afterPhase1 st).threads[a]?) := by
  refine ⟨maxPendingPriority_spec _ h2, ?_, fun a ha => phase1Go_active_mono st _ ha, ?_⟩
  · intro pr tid
    rw [mem_buildHeap]
    constructor
    · rintro ⟨_, hm, hlt, hpr⟩
      exact ⟨hm, hlt, hpr⟩
    · rintro ⟨hm, hlt, hpr⟩
      exact ⟨hbA tid hm, hm, hlt, hpr⟩
  intro a ha hge
  have hnp : a ∉ (afterPhase1 st).pending_threads := fun hmem => hdisj a hmem ha
  have hnh : a ∉ (buildHeap (afterPhase1 st)
      (maxPendingPriority (afterPhase1 st))).map Prod.snd := by
    intro hmem
    obtain ⟨hact, hlt⟩ := buildHeap_ids_subset _ _ hmem
    exact absurd (lt_of_lt_of_le hlt hge) (lt_irrefl _)
  exact survives_admission st h2 ha hnp hnh

/-- **C5.**  If at the start of an admission round no pending thread has a
priority above any active thread's, then no thread of the starting active
set is killed by admission: each stays in the active set with its record
untouched. -/
theorem admission_monotonicity (st : HostState E K)
    (hmono : ∀ p ∈ st.pending_threads, ∀ a ∈ st.active_threads,
      threadPriority st p ≤ threadPriority st a)
    (hdisj : ∀ a ∈ st.active_threads, a ∉ st.pending_threads) :
    ∀ a ∈ st.active_threads,
      a ∈ (activatePendingThreads st).active_threads ∧
      (activatePendingThreads st).threads[a]? = st.threads[a]? := by
  intro a ha
  by_cases hp : st.pending_threads = []
  · rw [activatePendingThreads, if_pos hp]
    exact ⟨ha, rfl⟩
  · have ha1 : a ∈ (afterPhase1 st).active_threads := phase1Go_active_mono st _ ha
    have hrec1 : (afterPhase1 st).threads[a]? = st.threads[a]? :=
      phase1Go_getElem?_pres st _ (hdisj a ha)
    by_cases h2 : (afterPhase1 st).pending_threads = []
    · rw [activatePendingThreads, if_neg hp, if_pos h2]
      exact ⟨ha1, hrec1⟩
    · have hpsub := phase1Go_pending_subset st st.pending_threads rfl
      have hprio : ∀ i, threadPriority (afterPhase1 st) i = threadPriority st i :=
        threadPriority_of_schedPreserves (afterPhase1_schedPreserves st)
      obtain ⟨hle, q, hq, hqe⟩ := maxPendingPriority_spec (afterPhase1 st) h2
      have hqa : maxPendingPriority (afterPhase1 st) ≤ threadPriority (afterPhase1 st) a := by
        rw [← hqe, hprio q, hprio a]
        exact hmono q (hpsub q hq) a ha
      have hnp : a ∉ (afterPhase1 st).pending_threads := fun hm => hdisj a ha (hpsub a hm)
      have hnh : a ∉ (buildHeap (afterPhase1 st)
          (maxPendingPriority (afterPhase1 st))).map Prod.snd := by
        intro hm
        obtain ⟨hact, hlt⟩ := buildHeap_ids_subset _ _ hm
        exact absurd (lt_of_lt_of_le hlt hqa) (lt_irrefl _)
      obtain ⟨hmem, hrec⟩ := survives_admission st h2 ha1 hnp hnh
      exact ⟨hmem, hrec.trans hrec1⟩

/-- **C2.**  In phase 2, with `(pa, aid)` on top of the heap and `pid` at the
head of the pending deque: the head of the heap is its minimum-priority
entry; if `pid`'s priority is strictly greater than `aid`'s, then `aid` is
killed (dead and out of the active set at the end of the round) and `pid` is
activated (running and in the active set at the end of the round); otherwise
`pid` is popped and marked dead — in particular at equal priorities the
incumbent is not evicted by `pid` — and the round continues with the heap
unchanged. -/
theorem admission_eviction_tiebreak (st : HostState E K)
    (pid : Nat) (prest : List Nat) (pa : ℚ) (aid : Nat) (hrest : List (ℚ × Nat))
    (hpend : (afterPhase1 st).pending_threads = pid :: prest)
    (hheap : buildHeap (afterPhase1 st) (maxPendingPriority (afterPhase1 st)) = (pa, aid) :: hrest)
    (hnd : (afterPhase1 st).pending_threads.Nodup)
    (hdisj : ∀ x ∈ (afterPhase1 st).pending_threads, x ∉ (afterPhase1 st).active_threads)
    (hbp : pid < (afterPhase1 st).threads.length)
    (hba : aid < (afterPhase1 st).threads.length) :
    (∀ x ∈ hrest, pa ≤ x.1) ∧
    (threadPriority (afterPhase1 st) pid > threadPriority (afterPhase1 st) aid →
      aid ∉ (activatePendingThreads st).active_threads ∧
      runStateAt (activatePendingThreads st) aid = some ThreadState.DEAD ∧
      pid ∈ (activatePendingThreads st).active_threads ∧
      runStateAt (activatePendingThreads st) pid = some ThreadState.RUNNING) ∧
    (¬ threadPriority (afterPhase1 st) pid > threadPriority (afterPhase1 st) aid →
      pid ∉ (activatePendingThreads st).active_threads ∧
      runStateAt (activatePendingThreads st) pid = some ThreadState.DEAD ∧
      activatePendingThreads st =
        phase3Go
          (phase2Go (setDeadThread { afterPhase1 st with pending_threads := prest } pid)
            ((pa, aid) :: hrest) prest)
          ((phase2Go (setDeadThread { afterPhase1 st with pending_threads := prest } pid)
            ((pa, aid) :: hrest) prest)).pending_threads) := by
  have h2 : (afterPhase1 st).pending_threads ≠ [] := by
    rw [hpend]; exact List.cons_ne_nil _ _
  have hpid_pend : pid ∈ (afterPhase1 st).pending_threads := by
    rw [hpend]; exact List.mem_cons_self _ _
  have haid_act : aid ∈ (afterPhase1 st).active_threads :=
    ((mem_buildHeap _ _ pa aid).mp (by rw [hheap]; exact List.mem_cons_self _ _)).2.1
  have hpid_nact : pid ∉ (afterPhase1 st).active_threads := hdisj pid hpid_pend
  have haid_npend : aid ∉ (afterPhase1 st).pending_threads := fun h => hdisj aid h haid_act
  have hne : aid ≠ pid := fun h => hpid_nact (h ▸ haid_act)
  have hpid_nprest : pid ∉ prest := by
    rw [hpend] at hnd
    exact (List.nodup_cons.mp hnd).1
  have haid_nprest : aid ∉ prest := fun h =>
    haid_npend (by rw [hpend]; exact List.mem_cons_of_mem _ h)
  have hidsnd := buildHeap_ids_nodup (afterPhase1 st) (maxPendingPriority (afterPhase1 st))
  rw [hheap] at hidsnd
  have haid_nhrest : aid ∉ hrest.map Prod.snd := (List.nodup_cons.mp hidsnd).1
  have hpid_nheap : pid ∉ ((pa, aid) :: hrest).map Prod.snd := by
    intro h
    exact hpid_nact (buildHeap_ids_subset (afterPhase1 st)
      (maxPendingPriority (afterPhase1 st)) (a := pid) (by rw [hheap]; exact h)).1
  have hpid_nhrest : pid ∉ hrest.map Prod.snd := fun h =>
    hpid_nheap (List.mem_cons_of_mem _ h)
  refine ⟨buildHeap_head_le _ _ _ _ _ hheap, ?_, ?_⟩
  · intro hgt
    rw [activatePendingThreads_eq_p3 st h2]
    have hstep : afterPhase2 st =
        phase2Go (activateThread
          (killThread { afterPhase1 st with pending_threads := prest } aid) pid) hrest prest := by
      unfold afterPhase2
      rw [hpend, hheap, phase2Go, if_pos hgt]
    rw [hstep]
    have hA_aid_nact : aid ∉ (activateThread
        (killThread { afterPhase1 st with pending_threads := prest } aid) pid).active_threads := by
      intro h
      rcases Finset.mem_insert.mp h with h' | h'
      · exact hne h'
      · exact (Finset.mem_erase.mp h').1 rfl
    have hA_pid_act : pid ∈ (activateThread
        (killThread { afterPhase1 st with pending_threads := prest } aid) pid).active_threads :=
      Finset.mem_insert_self _ _
    have hA_aid_rec : (activateThread
        (killThread { afterPhase1 st with pending_threads := prest } aid) pid).threads[aid]? =
        ((afterPhase1 st).threads[aid]?).map (fun t => { t with run_state := ThreadState.DEAD }) := by
      simp only [activateThread, killThread]
      rw [setRunState_getElem?_ne hne, setRunState_getElem?_self]
    have hA_pid_rec : (activateThread
        (killThread { afterPhase1 st with pending_threads := prest } aid) pid).threads[pid]? =
        ((afterPhase1 st).threads[pid]?).map (fun t => { t with run_state := ThreadState.RUNNING }) := by
      simp only [activateThread, killThread]
      rw [setRunState_getElem?_self, setRunState_getElem?_ne (fun h => hne h.symm)]
    have hsubA := phase2Go_pending_subset (activateThread
      (killThread { afterPhase1 st with pending_threads := prest } aid) pid) hrest prest rfl
    refine ⟨?_, ?_, ?_, ?_⟩
    · rw [phase3Go_active_eq]
      exact phase2Go_active_nonmem _ _ _ hA_aid_nact haid_nprest
    · unfold runStateAt
      have haid_np2 : aid ∉ (phase2Go (activateThread
          (killThread { afterPhase1 st with pending_threads := prest } aid) pid)
          hrest prest).pending_threads := fun h => haid_nprest (hsubA aid h)
      rw [phase3Go_getElem?_pres _ _ haid_np2,
        phase2Go_getElem?_pres _ _ _ haid_nhrest haid_nprest, hA_aid_rec,
        List.getElem?_eq_getElem hba]
      rfl
    · rw [phase3Go_active_eq]
      exact phase2Go_active_of_mem _ _ _ hA_pid_act hpid_nhrest
    · unfold runStateAt
      have hpid_np2 : pid ∉ (phase2Go (activateThread
          (killThread { afterPhase1 st with pending_threads := prest } aid) pid)
          hrest prest).pending_threads := fun h => hpid_nprest (hsubA pid h)
      rw [phase3Go_getElem?_pres _ _ hpid_np2,
        phase2Go_getElem?_pres _ _ _ hpid_nhrest hpid_nprest, hA_pid_rec,
        List.getElem?_eq_getElem hbp]
      rfl
  · intro hng
    have hstep : afterPhase2 st =
        phase2Go (setDeadThread { afterPhase1 st with pending_threads := prest } pid)
          ((pa, aid) :: hrest) prest := by
      unfold afterPhase2
      rw [hpend, hheap, phase2Go, if_neg hng]
    have hsubB := phase2Go_pending_subset
      (setDeadThread { afterPhase1 st with pending_threads := prest } pid)
      ((pa, aid) :: hrest) prest rfl
    refine ⟨?_, ?_, ?_⟩
    · rw [activatePendingThreads_eq_p3 st h2, hstep, phase3Go_active_eq]
      exact phase2Go_active_nonmem _ _ _ hpid_nact hpid_nprest
    · unfold runStateAt
      rw [activatePendingThreads_eq_p3 st h2, hstep]
      have hpid_np2 : pid ∉ (phase2Go
          (setDeadThread { afterPhase1 st with pending_threads := prest } pid)
          ((pa, aid) :: hrest) prest).pending_threads := fun h => hpid_nprest (hsubB pid h)
      rw [phase3Go_getElem?_pres _ _ hpid_np2,
        phase2Go_getElem?_pres _ _ _ hpid_nheap hpid_nprest]
      show ((setRunState (afterPhase1 st).threads pid
        ThreadState.DEAD)[pid]?).map Thread.run_state = _
      rw [setRunState_getElem?_self, List.getElem?_eq_getElem hbp]
      rfl
    · rw [activatePendingThreads_eq_p3 st h2, hstep]

/-- Phase 1 under the no-saturation condition: with enough spare capacity for
the whole pending deque, phase 1 activates every pending thread in FIFO
arrival order (they are appended to the execution order in deque order),
empties the deque and touches no other thread. -/
theorem phase1Go_fast (st : HostState E K) (p : List Nat)
    (hsync : st.pending_threads = p)
    (hnd : p.Nodup)
    (hdisj : ∀ x ∈ p, x ∉ st.active_threads)
    (hb : ∀ x ∈ p, x < st.threads.length)
    (hcap : st.active_threads.card + p.length ≤ st.max_active_threads) :
    (phase1Go st p).pending_threads = [] ∧
    (phase1Go st p).active_threads = st.active_threads ∪ p.toFinset ∧
    (phase1Go st p).thread_exec_order = st.thread_exec_order ++ p ∧
    (∀ x ∈ p, runStateAt (phase1Go st p) x = some ThreadState.RUNNING) ∧
    (∀ x : Nat, x ∉ p → (phase1Go st p).threads[x]? = st.threads[x]?) := by
  induction p generalizing st with
  | nil =>
    rw [phase1Go]
    exact ⟨hsync, by simp, by simp, by simp, fun x _ => rfl⟩
  | cons tid rest ih =>
    have hguard : st.active_threads.card < st.max_active_threads := by
      rw [List.length_cons] at hcap
      omega
    rw [phase1Go, if_pos hguard]
    have htid : tid ∉ st.active_threads := hdisj tid (List.mem_cons_self tid rest)
    have hcard : (activateThread { st with pending_threads := rest }
        tid).active_threads.card = st.active_threads.card + 1 :=
      Finset.card_insert_of_not_mem htid
    have hnd' : rest.Nodup := (List.nodup_cons.mp hnd).2
    have htidrest : tid ∉ rest := (List.nodup_cons.mp hnd).1
    have hdisj' : ∀ x ∈ rest, x ∉ (activateThread { st with pending_threads := rest }
        tid).active_threads := by
      intro x hx hmem
      rcases Finset.mem_insert.mp hmem with h | h
      · exact htidrest (h ▸ hx)
      · exact hdisj x (List.mem_cons_of_mem tid hx) h
    have hb' : ∀ x ∈ rest, x < (activateThread { st with pending_threads := rest }
        tid).threads.length := by
      intro x hx
      show x < (setRunState st.threads tid ThreadState.RUNNING).length
      rw [setRunState_length]
      exact hb x (List.mem_cons_of_mem tid hx)
    have hcap' : (activateThread { st with pending_threads := rest }
        tid).active_threads.card + rest.length ≤
        (activateThread { st with pending_threads := rest } tid).max_active_threads := by
      show _ ≤ st.max_active_threads
      rw [hcard]
      rw [List.length_cons] at hcap
      omega
    obtain ⟨ih1, ih2, ih3, ih4, ih5⟩ := ih _ rfl hnd' hdisj' hb' hcap'
    refine ⟨ih1, ?_, ?_, ?_, ?_⟩
    · rw [ih2]
      show insert tid st.active_threads ∪ rest.toFinset = _
      rw [List.toFinset_cons, Finset.insert_union, Finset.union_insert]
    · rw [ih3]
      show (st.thread_exec_order ++ [tid]) ++ rest = _
      rw [List.append_assoc, List.singleton_append]
    · intro x hx
      by_cases hxr : x ∈ rest
      · exact ih4 x hxr
      · have hxtid : x = tid := by
          rcases List.mem_cons.mp hx with h | h
          · exact h
          · exact absurd h hxr
        subst hxtid
        unfold runStateAt
        rw [ih5 x hxr]
        show ((setRunState st.threads x ThreadState.RUNNING)[x]?).map Thread.run_state = _
        rw [setRunState_getElem?_self,
          List.getElem?_eq_getElem (hb x (List.mem_cons_self x rest))]
        rfl
    · intro x hx
      have hxr : x ∉ rest := fun h => hx (List.mem_cons_of_mem tid h)
      have hxtid : x ≠ tid := fun h => hx (by rw [h]; exact List.mem_cons_self tid rest)
      rw [ih5 x hxr]
      exact setRunState_getElem?_ne hxtid _ _

/-- **C3.**  Admission phase 1 activates pending threads in FIFO arrival
order (the pending deque is appended, in order, to the execution order);
when `|active| + |pending| ≤ max_active` at the start of admission, the
pending deque is drained, every formerly pending thread is RUNNING and in
the active set, and every active thread survives with its record
untouched. -/
theorem admission_fast_path (st : HostState E K)
    (hnd : st.pending_threads.Nodup)
    (hdisj : ∀ x ∈ st.pending_threads, x ∉ st.active_threads)
    (hb : ∀ x ∈ st.pending_threads, x < st.threads.length)
    (hcap : st.active_threads.card + st.pending_threads.length ≤ st.max_active_threads) :
    (activatePendingThreads st).pending_threads = [] ∧
    (activatePendingThreads st).active_threads
      = st.active_threads ∪ st.pending_threads.toFinset ∧
    (activatePendingThreads st).thread_exec_order
      = st.thread_exec_order ++ st.pending_threads ∧
    (∀ x ∈ st.pending_threads,
      runStateAt (activatePendingThreads st) x = some ThreadState.RUNNING) ∧
    (∀ a ∈ st.active_threads,
      a ∈ (activatePendingThreads st).active_threads ∧
      (activatePendingThreads st).threads[a]? = st.threads[a]?) := by
  obtain ⟨hp0, hact, hexec, hrun, hpres⟩ :=
    phase1Go_fast st st.pending_threads rfl hnd hdisj hb hcap
  by_cases hp : st.pending_threads = []
  · rw [activatePendingThreads, if_pos hp]
    refine ⟨hp, ?_, ?_, ?_, fun a ha => ⟨ha, rfl⟩⟩
    · rw [hp]; simp
    · rw [hp]; simp
    · intro x hx; rw [hp] at hx; cases hx
  · have h1 : (afterPhase1 st).pending_threads = [] := hp0
    rw [activatePendingThreads, if_neg hp, if_pos h1]
    refine ⟨hp0, hact, hexec, hrun, fun a ha => ⟨?_, hpres a (fun hm => hdisj a hm ha)⟩⟩
    show a ∈ (phase1Go st st.pending_threads).active_threads
    rw [hact]
    exact Finset.mem_union_left _ ha

/-- **C4.**  `SpawnThreadWithID` returns `none` exactly when the unused
stack is empty and the pool is at `max_thread_space`, in which case the
state is unchanged; otherwise it returns `some tid` where `tid` is the top
(back) of the unused stack — or the fresh index appended to the pool when
the stack is empty — and the commandeered thread is reset, given the
requested priority, passed to the backend's `InitThread`, marked PENDING
and appended to the back of the pending deque. -/
theorem spawnThreadWithID_spec (clear : E → E) (initT : E → Nat → E) (e0 : E)
    (st : HostState E K) (module_id : Nat) (p : ℚ)
    (hb : ∀ i ∈ st.unused_threads, i < st.threads.length) :
    ((SpawnThreadWithID clear initT e0 st module_id p).1 = none ↔
      st.unused_threads = [] ∧ ¬ st.threads.length < st.max_thread_space) ∧
    ((SpawnThreadWithID clear initT e0 st module_id p).1 = none →
      (SpawnThreadWithID clear initT e0 st module_id p).2 = st) ∧
    (∀ tid, (SpawnThreadWithID clear initT e0 st module_id p).1 = some tid →
      (SpawnThreadWithID clear initT e0 st module_id p).2.pending_threads
        = st.pending_threads ++ [tid] ∧
      (st.unused_threads = [] →
        tid = st.threads.length ∧
        (SpawnThreadWithID clear initT e0 st module_id p).2.threads.length
          = st.threads.length + 1 ∧
        (SpawnThreadWithID clear initT e0 st module_id p).2.unused_threads = [] ∧
        (SpawnThreadWithID clear initT e0 st module_id p).2.threads[tid]?
          = some ⟨initT (clear e0) module_id, p, ThreadState.PENDING⟩) ∧
      (st.unused_threads ≠ [] →
        st.unused_threads.getLast? = some tid ∧
        (SpawnThreadWithID clear initT e0 st module_id p).2.unused_threads
          = st.unused_threads.dropLast ∧
        (SpawnThreadWithID clear initT e0 st module_id p).2.threads.length
          = st.threads.length ∧
        ∃ t, st.threads[tid]? = some t ∧
          (SpawnThreadWithID clear initT e0 st module_id p).2.threads[tid]?
            = some ⟨initT (clear t.exec_state) module_id, p, ThreadState.PENDING⟩)) := by
  rcases hU : st.unused_threads.getLast? with _ | tid0
  · have hunil : st.unused_threads = [] := by
      cases hl : st.unused_threads with
      | nil => rfl
      | cons x xs => rw [hl] at hU; simp [List.getLast?_concat] at hU
    by_cases hsp : st.threads.length < st.max_thread_space
    · refine ⟨by simp [SpawnThreadWithID, hU, hsp], by simp [SpawnThreadWithID, hU, hsp], ?_⟩
      intro tid htid
      have htid' : st.threads.length = tid := by
        simpa [SpawnThreadWithID, hU, hsp] using htid
      subst htid'
      refine ⟨by simp [SpawnThreadWithID, hU, hsp, commandeerThread], ?_,
        fun h => absurd hunil h⟩
      intro _
      refine ⟨rfl, ?_, by simp [SpawnThreadWithID, hU, hsp, commandeerThread], ?_⟩
      · simp only [SpawnThreadWithID, hU, hsp, if_pos, commandeerThread]
        rw [modifyAt_length, List.length_append, List.length_cons, List.length_nil]
      · simp only [SpawnThreadWithID, hU, hsp, if_pos, commandeerThread]
        rw [modifyAt_getElem?_self, List.getElem?_concat_length]
        rfl
    · refine ⟨by simp [SpawnThreadWithID, hU, hsp, hunil],
        fun _ => by simp [SpawnThreadWithID, hU, hsp], ?_⟩
      intro tid htid
      simp [SpawnThreadWithID, hU, hsp] at htid
  · have hune : st.unused_threads ≠ [] := by
      intro h; rw [h] at hU; cases hU
    refine ⟨by simp [SpawnThreadWithID, hU, hune], by simp [SpawnThreadWithID, hU], ?_⟩
    intro tid htid
    have htid0 : tid0 = tid := by
      simpa [SpawnThreadWithID, hU] using htid
    subst htid0
    have htmem : tid0 ∈ st.unused_threads := by
      obtain ⟨hne, heq⟩ := List.mem_getLast?_eq_getLast (Option.mem_def.mpr hU)
      rw [heq]
      exact List.getLast_mem hne
    have htlt : tid0 < st.threads.length := hb tid0 htmem
    refine ⟨by simp [SpawnThreadWithID, hU, commandeerThread],
      fun h => absurd h hune, ?_⟩
    intro _
    refine ⟨rfl, by simp [SpawnThreadWithID, hU, commandeerThread], ?_, ?_⟩
    · simp only [SpawnThreadWithID, hU, commandeerThread]
      exact modifyAt_length _ _ _
    · refine ⟨st.threads[tid0], List.getElem?_eq_getElem htlt, ?_⟩
      simp only [SpawnThreadWithID, hU, commandeerThread]
      rw [modifyAt_getElem?_self, List.getElem?_eq_getElem htlt]
      rfl

/-- **C7.**  The `is_executing` flag guards both entry points: a tick
(`SingleProcess`) attempted while executing fails with `REENTRANT_TICK`, and
so does `BaseResetState`; when the flag is clear, neither fails. -/
theorem reentrancy_guards (st : HostState E K) (clear : E → E) :
    (SingleProcessChecked st = Except.error HostError.REENTRANT_TICK ↔
      st.is_executing = true) ∧
    (BaseResetStateChecked clear st = Except.error HostError.REENTRANT_TICK ↔
      st.is_executing = true) := by
  by_cases h : st.is_executing <;>
    simp [SingleProcessChecked, BaseResetStateChecked, h]

/-- **C8.**  `BaseResetState`, under its precondition that the hardware is
not executing, clears the event queue, resets every thread slot (DEAD,
priority 1, execution state cleared), empties the active set, pending deque
and execution order, rebuilds the unused stack as all pool ids in reverse
index order (so the lowest id is at the back, handed out first), resets the
current-thread id to the sentinel, clears the executing flag, and leaves
the custom component untouched. -/
theorem baseResetState_spec (clear : E → E) (st : HostState E K)
    (h : st.is_executing = false) :
    BaseResetStateChecked clear st = Except.ok (BaseResetState clear st) ∧
    (BaseResetState clear st).event_queue = [] ∧
    (BaseResetState clear st).threads = st.threads.map (Thread.Reset clear) ∧
    (∀ t ∈ (BaseResetState clear st).threads,
      t.run_state = ThreadState.DEAD ∧ t.priority = 1) ∧
    (BaseResetState clear st).active_threads = ∅ ∧
    (BaseResetState clear st).pending_threads = [] ∧
    (BaseResetState clear st).thread_exec_order = [] ∧
    (BaseResetState clear st).unused_threads = (List.range st.threads.length).reverse ∧
    (st.threads.length ≠ 0 →
      (BaseResetState clear st).unused_threads.getLast? = some 0) ∧
    (BaseResetState clear st).cur_thread_id = nullThreadID ∧
    (BaseResetState clear st).is_executing = false ∧
    (BaseResetState clear st).custom_component = st.custom_component := by
  refine ⟨by simp [BaseResetStateChecked, h], rfl, rfl, ?_, rfl, rfl, rfl, rfl, ?_,
    rfl, rfl, rfl⟩
  · intro t ht
    obtain ⟨t0, _, rfl⟩ := List.mem_map.mp ht
    exact ⟨rfl, rfl⟩
  · intro hne
    show ((List.range st.threads.length).reverse).getLast? = some 0
    rw [List.getLast?_reverse]
    obtain ⟨m, hm⟩ : ∃ m, st.threads.length = m + 1 :=
      ⟨st.threads.length - 1, (Nat.succ_pred_eq_of_pos (Nat.pos_of_ne_zero hne)).symm⟩
    rw [hm, List.range_succ_eq_map]
    rfl

/-- **C9.**  Scheduling operations — `ActivateThread`, `KillThread` and the
whole admission controller — never modify any thread's priority or
execution-state payload (nor the pool size, unused stack, event queue,
current-thread id, executing flag, configuration bounds or custom
component); they change only `run_state` tags and membership of ids in the
active set, pending deque and execution order. -/
theorem scheduling_frame (st : HostState E K) (tid : Nat) :
    SchedPreserves st (activateThread st tid) ∧
    SchedPreserves st (killThread st tid) ∧
    SchedPreserves st (activatePendingThreads st) :=
  ⟨schedPreserves_activateThread st tid, schedPreserves_killThread st tid,
    schedPreserves_activatePendingThreads st⟩

/-- **C10.**  Outside execution the current-thread id is the sentinel
`(size_t)-1`: it is the sentinel at construction and after
`BaseResetState` (with the executing flag clear in both), `GetCurThreadID`
returns exactly the stored id, and no scheduling or spawning operation
changes the stored id or the executing flag. -/
theorem curThreadID_sentinel (e0 : E) (k0 : K) (clear : E → E) (initT : E → Nat → E)
    (st : HostState E K) (module_id : Nat) (p : ℚ) (tid : Nat) :
    GetCurThreadID (initialState e0 k0 : HostState E K) = nullThreadID ∧
    (initialState e0 k0 : HostState E K).is_executing = false ∧
    GetCurThreadID (BaseResetState clear st) = nullThreadID ∧
    (BaseResetState clear st).is_executing = false ∧
    GetCurThreadID st = st.cur_thread_id ∧
    GetCurThreadID (activatePendingThreads st) = GetCurThreadID st ∧
    (activatePendingThreads st).is_executing = st.is_executing ∧
    GetCurThreadID (activateThread st tid) = GetCurThreadID st ∧
    GetCurThreadID (killThread st tid) = GetCurThreadID st ∧
    GetCurThreadID (SpawnThreadWithID clear initT e0 st module_id p).2 = GetCurThreadID st ∧
    (SpawnThreadWithID clear initT e0 st module_id p).2.is_executing = st.is_executing := by
  refine ⟨rfl, rfl, rfl, rfl, rfl, ?_, ?_, rfl, rfl, ?_, ?_⟩
  · exact (schedPreserves_activatePendingThreads st).2.2.2.2.2.1
  · exact (schedPreserves_activatePendingThreads st).2.2.2.2.2.2.1
  · rcases hU : st.unused_threads.getLast? with _ | t0
    · by_cases hsp : st.threads.length < st.max_thread_space
      · simp [SpawnThreadWithID, hU, hsp, commandeerThread, GetCurThreadID]
      · simp [SpawnThreadWithID, hU, hsp, GetCurThreadID]
    · simp [SpawnThreadWithID, hU, commandeerThread, GetCurThreadID]
  · rcases hU : st.unused_threads.getLast? with _ | t0
    · by_cases hsp : st.threads.length < st.max_thread_space
      · simp [SpawnThreadWithID, hU, hsp, commandeerThread]
      · simp [SpawnThreadWithID, hU, hsp]
    · simp [SpawnThreadWithID, hU, commandeerThread]

theorem WF_disjoint (st : HostState E K) (hW : WFHostState st) :
    (∀ i ∈ st.active_threads, i ∉ st.pending_threads) ∧
    (∀ i ∈ st.active_threads, i ∉ st.unused_threads) ∧
    (∀ i ∈ st.pending_threads, i ∉ st.unused_threads) := by
  obtain ⟨hA, hP, hU, hIR, hIP, hUD, _, _, _, _⟩ := hW
  refine ⟨?_, ?_, ?_⟩
  · intro i hia hip
    have h1 := (hIR i (hA i hia)).mpr hia
    have h2 := (hIP i (hA i hia)).mpr hip
    rw [h1] at h2
    cases h2
  · intro i hia hiu
    have h1 := (hIR i (hA i hia)).mpr hia
    have h2 := hUD i hiu
    rw [h1] at h2
    cases h2
  · intro i hip hiu
    have h1 := (hIP i (hP i hip)).mpr hip
    have h2 := hUD i hiu
    rw [h1] at h2
    cases h2

theorem WF_facts_pending_head (st : HostState E K) (hW : WFHostState st)
    {pid : Nat} {prest : List Nat} (hp : st.pending_threads = pid :: prest) :
    pid < st.threads.length ∧ runStateAt st pid = some ThreadState.PENDING ∧
    pid ∉ st.active_threads ∧ pid ∉ st.unused_threads ∧ pid ∉ prest := by
  obtain ⟨hA, hP, hU, hIR, hIP, hUD, hPnd, _, _, _⟩ := hW
  have hmem : pid ∈ st.pending_threads := by
    rw [hp]; exact List.mem_cons_self _ _
  have hb : pid < st.threads.length := hP pid hmem
  have hpend : runStateAt st pid = some ThreadState.PENDING := (hIP pid hb).mpr hmem
  refine ⟨hb, hpend, ?_, ?_, ?_⟩
  · intro h
    have := (hIR pid hb).mpr h
    rw [hpend] at this
    cases this
  · intro h
    have := hUD pid h
    rw [hpend] at this
    cases this
  · rw [hp] at hPnd
    exact (List.nodup_cons.mp hPnd).1

theorem WF_facts_active (st : HostState E K) (hW : WFHostState st)
    {aid : Nat} (ha : aid ∈ st.active_threads) :
    aid < st.threads.length ∧ runStateAt st aid = some ThreadState.RUNNING ∧
    aid ∉ st.pending_threads ∧ aid ∉ st.unused_threads := by
  obtain ⟨hdj1, hdj2, _⟩ := WF_disjoint st hW
  obtain ⟨hA, _, _, hIR, _, _, _, _, _, _⟩ := hW
  exact ⟨hA aid ha, (hIR aid (hA aid ha)).mpr ha, hdj1 aid ha, hdj2 aid ha⟩

theorem runState_list_set_self (ts : List (Thread E)) (i : Nat) (s : ThreadState)
    (h : i < ts.length) :
    ((setRunState ts i s)[i]?).map Thread.run_state = some s := by
  rw [setRunState_getElem?_self, List.getElem?_eq_getElem h]
  rfl

theorem runState_list_set_ne (ts : List (Thread E)) {i j : Nat} (hne : j ≠ i)
    (s : ThreadState) :
    ((setRunState ts i s)[j]?).map Thread.run_state = (ts[j]?).map Thread.run_state := by
  rw [setRunState_getElem?_ne hne]

/-- Rejecting the pending head (phase 2 else-branch and phase 3) preserves
the invariant. -/
theorem WF_reject_step (st : HostState E K) {pid : Nat} {prest : List Nat}
    (hW : WFHostState st) (hp : st.pending_threads = pid :: prest) :
    WFHostState (setDeadThread { st with pending_threads := prest } pid) := by
  obtain ⟨hbp, hpend, hnact, hnun, hnprest⟩ := WF_facts_pending_head st hW hp
  obtain ⟨hA, hP, hU, hIR, hIP, hUD, hPnd, hUnd, hAE, hC⟩ := hW
  have hlen : (setDeadThread { st with pending_threads := prest } pid).threads.length
      = st.threads.length := setRunState_length _ _ _
  refine ⟨?_, ?_, ?_, ?_, ?_, ?_, ?_, ?_, ?_, ?_⟩
  · intro i hi; rw [hlen]; exact hA i hi
  · intro i hi
    rw [hlen]
    exact hP i (by rw [hp]; exact List.mem_cons_of_mem _ hi)
  · intro i hi; rw [hlen]; exact hU i hi
  · intro i hi
    rw [hlen] at hi
    show ((setRunState st.threads pid ThreadState.DEAD)[i]?).map Thread.run_state
      = some ThreadState.RUNNING ↔ i ∈ st.active_threads
    by_cases hipid : i = pid
    · subst hipid
      rw [runState_list_set_self _ _ _ hbp]
      exact iff_of_false (by decide) hnact
    · rw [runState_list_set_ne _ hipid]
      exact hIR i hi
  · intro i hi
    rw [hlen] at hi
    show ((setRunState st.threads pid ThreadState.DEAD)[i]?).map Thread.run_state
      = some ThreadState.PENDING ↔ i ∈ prest
    by_cases hipid : i = pid
    · subst hipid
      rw [runState_list_set_self _ _ _ hbp]
      exact iff_of_false (by decide) hnprest
    · rw [runState_list_set_ne _ hipid]
      show runStateAt st i = some ThreadState.PENDING ↔ i ∈ prest
      rw [hIP i hi, hp]
      simp [List.mem_cons, hipid]
  · intro i hi
    have hipid : i ≠ pid := fun h => hnun (h ▸ hi)
    show ((setRunState st.threads pid ThreadState.DEAD)[i]?).map Thread.run_state
      = some ThreadState.DEAD
    rw [runState_list_set_ne _ hipid]
    exact hUD i hi
  · rw [hp] at hPnd
    exact (List.nodup_cons.mp hPnd).2
  · exact hUnd
  · exact hAE
  · exact hC

theorem WF_phase3Go (st : HostState E K) (p : List Nat) (hW : WFHostState st)
    (hsync : st.pending_threads = p) : WFHostState (phase3Go st p) := by
  induction p generalizing st with
  | nil => rw [phase3Go]; exact hW
  | cons pid rest ih =>
    rw [phase3Go]
    exact ih _ (WF_reject_step st hW hsync) rfl

/-- Phase-1 activation of the pending head under spare capacity preserves
the invariant. -/
theorem WF_activate_step (st : HostState E K) {tid : Nat} {rest : List Nat}
    (hW : WFHostState st) (hp : st.pending_threads = tid :: rest)
    (hguard : st.active_threads.card < st.max_active_threads) :
    WFHostState (activateThread { st with pending_threads := rest } tid) := by
  obtain ⟨hbp, hpend, hnact, hnun, hnrest⟩ := WF_facts_pending_head st hW hp
  obtain ⟨hA, hP, hU, hIR, hIP, hUD, hPnd, hUnd, hAE, hC⟩ := hW
  have hlen : (activateThread { st with pending_threads := rest } tid).threads.length
      = st.threads.length := setRunState_length _ _ _
  refine ⟨?_, ?_, ?_, ?_, ?_, ?_, ?_, ?_, ?_, ?_⟩
  · intro i hi
    rw [hlen]
    rcases Finset.mem_insert.mp hi with h | h
    · exact h ▸ hbp
    · exact hA i h
  · intro i hi
    rw [hlen]
    exact hP i (by rw [hp]; exact List.mem_cons_of_mem _ hi)
  · intro i hi; rw [hlen]; exact hU i hi
  · intro i hi
    rw [hlen] at hi
    show ((setRunState st.threads tid ThreadState.RUNNING)[i]?).map Thread.run_state
      = some ThreadState.RUNNING ↔ i ∈ insert tid st.active_threads
    by_cases hit : i = tid
    · subst hit
      rw [runState_list_set_self _ _ _ hbp]
      exact iff_of_true rfl (Finset.mem_insert_self _ _)
    · rw [runState_list_set_ne _ hit]
      show runStateAt st i = _ ↔ _
      rw [hIR i hi]
      simp [Finset.mem_insert, hit]
  · intro i hi
    rw [hlen] at hi
    show ((setRunState st.threads tid ThreadState.RUNNING)[i]?).map Thread.run_state
      = some ThreadState.PENDING ↔ i ∈ rest
    by_cases hit : i = tid
    · subst hit
      rw [runState_list_set_self _ _ _ hbp]
      exact iff_of_false (by decide) hnrest
    · rw [runState_list_set_ne _ hit]
      show runStateAt st i = _ ↔ _
      rw [hIP i hi, hp]
      simp [List.mem_cons, hit]
  · intro i hi
    have hit : i ≠ tid := fun h => hnun (h ▸ hi)
    show ((setRunState st.threads tid ThreadState.RUNNING)[i]?).map Thread.run_state
      = some ThreadState.DEAD
    rw [runState_list_set_ne _ hit]
    exact hUD i hi
  · rw [hp] at hPnd
    exact (List.nodup_cons.mp hPnd).2
  · exact hUnd
  · intro i hi
    rcases Finset.mem_insert.mp hi with h | h
    · subst h
      exact List.mem_append_right _ (List.mem_cons_self _ _)
    · exact List.mem_append_left _ (hAE i h)
  · exact le_trans (Finset.card_insert_le _ _) hguard

theorem WF_phase1Go (st : HostState E K) (p : List Nat) (hW : WFHostState st)
    (hsync : st.pending_threads = p) : WFHostState (phase1Go st p) := by
  induction p generalizing st with
  | nil => rw [phase1Go]; exact hW
  | cons tid rest ih =>
    rw [phase1Go]
    split
    · exact ih _ (WF_activate_step st hW hsync (by assumption)) rfl
    · exact hW

/-- A phase-2 eviction (kill the heap-top active thread, activate the
pending head) preserves the invariant. -/
theorem WF_evict_step (st : HostState E K) {pid aid : Nat} {prest : List Nat}
    (hW : WFHostState st) (hp : st.pending_threads = pid :: prest)
    (ha : aid ∈ st.active_threads) :
    WFHostState (activateThread (killThread { st with pending_threads := prest } aid) pid) := by
  obtain ⟨hbp, hpend, hpnact, hpnun, hpnrest⟩ := WF_facts_pending_head st hW hp
  obtain ⟨hba, harun, hanp, hanu⟩ := WF_facts_active st hW ha
  have hne : pid ≠ aid := fun h => hpnact (h ▸ ha)
  have hanrest : aid ∉ prest := fun h =>
    hanp (by rw [hp]; exact List.mem_cons_of_mem _ h)
  obtain ⟨hA, hP, hU, hIR, hIP, hUD, hPnd, hUnd, hAE, hC⟩ := hW
  have hlen : (activateThread (killThread { st with pending_threads := prest } aid)
      pid).threads.length = st.threads.length := by
    show (setRunState (setRunState st.threads aid ThreadState.DEAD) pid
      ThreadState.RUNNING).length = st.threads.length
    rw [setRunState_length, setRunState_length]
  have hbp2 : pid < (setRunState st.threads aid ThreadState.DEAD).length := by
    rw [setRunState_length]; exact hbp
  refine ⟨?_, ?_, ?_, ?_, ?_, ?_, ?_, ?_, ?_, ?_⟩
  · intro i hi
    rw [hlen]
    rcases Finset.mem_insert.mp hi with h | h
    · exact h ▸ hbp
    · exact hA i (Finset.mem_of_mem_erase h)
  · intro i hi
    rw [hlen]
    exact hP i (by rw [hp]; exact List.mem_cons_of_mem _ hi)
  · intro i hi; rw [hlen]; exact hU i hi
  · intro i hi
    rw [hlen] at hi
    show ((setRunState (setRunState st.threads aid ThreadState.DEAD) pid
        ThreadState.RUNNING)[i]?).map Thread.run_state
      = some ThreadState.RUNNING ↔ i ∈ insert pid (st.active_threads.erase aid)
    by_cases hip : i = pid
    · subst hip
      rw [runState_list_set_self _ _ _ hbp2]
      exact iff_of_true rfl (Finset.mem_insert_self _ _)
    · rw [runState_list_set_ne _ hip]
      by_cases hia : i = aid
      · subst hia
        rw [runState_list_set_self _ _ _ hba]
        refine iff_of_false (by decide) ?_
        intro hmem
        rcases Finset.mem_insert.mp hmem with h | h
        · exact hne h.symm
        · exact (Finset.mem_erase.mp h).1 rfl
      · rw [runState_list_set_ne _ hia]
        show runStateAt st i = _ ↔ _
        rw [hIR i hi]
        simp [Finset.mem_insert, Finset.mem_erase, hip, hia]
  · intro i hi
    rw [hlen] at hi
    show ((setRunState (setRunState st.threads aid ThreadState.DEAD) pid
        ThreadState.RUNNING)[i]?).map Thread.run_state
      = some ThreadState.PENDING ↔ i ∈ prest
    by_cases hip : i = pid
    · subst hip
      rw [runState_list_set_self _ _ _ hbp2]
      exact iff_of_false (by decide) hpnrest
    · rw [runState_list_set_ne _ hip]
      by_cases hia : i = aid
      · subst hia
        rw [runState_list_set_self _ _ _ hba]
        exact iff_of_false (by decide) hanrest
      · rw [runState_list_set_ne _ hia]
        show runStateAt st i = _ ↔ _
        rw [hIP i hi, hp]
        simp [List.mem_cons, hip]
  · intro i hi
    have hip : i ≠ pid := fun h => hpnun (h ▸ hi)
    have hia : i ≠ aid := fun h => hanu (h ▸ hi)
    show ((setRunState (setRunState st.threads aid ThreadState.DEAD) pid
        ThreadState.RUNNING)[i]?).map Thread.run_state = some ThreadState.DEAD
    rw [runState_list_set_ne _ hip, runState_list_set_ne _ hia]
    exact hUD i hi
  · rw [hp] at hPnd
    exact (List.nodup_cons.mp hPnd).2
  · exact hUnd
  · intro i hi
    rcases Finset.mem_insert.mp hi with h | h
    · subst h
      exact List.mem_append_right _ (List.mem_cons_self _ _)
    · exact List.mem_append_left _ (hAE i (Finset.mem_of_mem_erase h))
  · show (insert pid (st.active_threads.erase aid)).card ≤ st.max_active_threads
    have h1 := Finset.card_insert_le pid (st.active_threads.erase aid)
    have h2 := Finset.card_erase_of_mem ha
    have h3 : 0 < st.active_threads.card := Finset.card_pos.mpr ⟨aid, ha⟩
    omega

theorem WF_phase2Go (st : HostState E K) (heap : List (ℚ × Nat)) (p : List Nat)
    (hW : WFHostState st) (hsync : st.pending_threads = p)
    (hsub : ∀ x ∈ heap.map Prod.snd, x ∈ st.active_threads)
    (hnd : (heap.map Prod.snd).Nodup) :
    WFHostState (phase2Go st heap p) := by
  induction p generalizing st heap with
  | nil => cases heap <;> exact hW
  | cons pid prest ih =>
    cases heap with
    | nil => exact hW
    | cons top hrest =>
      obtain ⟨pq, aid⟩ := top
      have haid : aid ∈ st.active_threads := hsub aid (List.mem_cons_self _ _)
      rw [phase2Go]
      split
      · refine ih _ _ (WF_evict_step st hW hsync haid) rfl ?_ ?_
        · intro x hx
          have hxa : x ≠ aid := fun h => (List.nodup_cons.mp hnd).1 (h ▸ hx)
          exact Finset.mem_insert_of_mem
            (Finset.mem_erase.mpr ⟨hxa, hsub x (List.mem_cons_of_mem _ hx)⟩)
        · exact (List.nodup_cons.mp hnd).2
      · exact ih _ _ (WF_reject_step st hW hsync) rfl (fun x hx => hsub x hx) hnd

theorem WF_activatePendingThreads (st : HostState E K) (hW : WFHostState st) :
    WFHostState (activatePendingThreads st) := by
  rw [activatePendingThreads]
  split
  · exact hW
  · split
    · exact WF_phase1Go st _ hW rfl
    · have hW1 : WFHostState (afterPhase1 st) := WF_phase1Go st _ hW rfl
      have hW2 : WFHostState (afterPhase2 st) := by
        unfold afterPhase2
        refine WF_phase2Go _ _ _ hW1 rfl ?_ (buildHeap_ids_nodup _ _)
        intro x hx
        exact (buildHeap_ids_subset _ _ hx).1
      exact WF_phase3Go _ _ hW2 rfl

theorem getLast?_facts {l : List Nat} {a : Nat} (h : l.getLast? = some a)
    (hnd : l.Nodup) : a ∈ l ∧ a ∉ l.dropLast := by
  have hmem : a ∈ l := by
    obtain ⟨hne, heq⟩ := List.mem_getLast?_eq_getLast (Option.mem_def.mpr h)
    rw [heq]
    exact List.getLast_mem hne
  refine ⟨hmem, ?_⟩
  have hdecomp : l.dropLast ++ [a] = l :=
    List.dropLast_append_getLast? a (Option.mem_def.mpr h)
  intro hmem'
  rw [← hdecomp] at hnd
  rcases List.nodup_append.mp hnd with ⟨_, _, hdisj⟩
  exact hdisj hmem' (List.mem_cons_self a [])

theorem WF_spawnThreadWithID (clear : E → E) (initT : E → Nat → E) (e0 : E)
    (st : HostState E K) (module_id : Nat) (p : ℚ) (hW : WFHostState st) :
    WFHostState (SpawnThreadWithID clear initT e0 st module_id p).2 := by
  obtain ⟨hA, hP, hU, hIR, hIP, hUD, hPnd, hUnd, hAE, hC⟩ := hW
  rcases hUL : st.unused_threads.getLast? with _ | tid0
  · by_cases hsp : st.threads.length < st.max_thread_space
    · simp only [SpawnThreadWithID, hUL, if_pos hsp]
      have hselfrec :
          runStateAt (commandeerThread clear initT
            { st with threads := st.threads ++ [⟨e0, 1, ThreadState.DEAD⟩] }
            st.threads.length module_id p []) st.threads.length
            = some ThreadState.PENDING := by
        show (((modifyAt _ st.threads.length
          (st.threads ++ [⟨e0, 1, ThreadState.DEAD⟩])))[st.threads.length]?).map
            Thread.run_state = _
        rw [modifyAt_getElem?_self, List.getElem?_concat_length]
        rfl
      have hothrec : ∀ i : Nat, i < st.threads.length →
          runStateAt (commandeerThread clear initT
            { st with threads := st.threads ++ [⟨e0, 1, ThreadState.DEAD⟩] }
            st.threads.length module_id p []) i = runStateAt st i := by
        intro i hi
        show (((modifyAt _ st.threads.length
          (st.threads ++ [⟨e0, 1, ThreadState.DEAD⟩])))[i]?).map Thread.run_state = _
        rw [modifyAt_getElem?_ne _ (Nat.ne_of_lt hi), List.getElem?_append_left hi]
        rfl
      have hlen : (commandeerThread clear initT
          { st with threads := st.threads ++ [⟨e0, 1, ThreadState.DEAD⟩] }
          st.threads.length module_id p []).threads.length = st.threads.length + 1 := by
        show (modifyAt _ _ _).length = _
        rw [modifyAt_length, List.length_append, List.length_cons, List.length_nil]
      refine ⟨?_, ?_, ?_, ?_, ?_, ?_, ?_, ?_, ?_, ?_⟩
      · intro i hi
        rw [hlen]
        exact Nat.lt_succ_of_lt (hA i hi)
      · intro i hi
        rw [hlen]
        rcases List.mem_append.mp hi with h | h
        · exact Nat.lt_succ_of_lt (hP i h)
        · rw [List.mem_singleton.mp h]
          exact Nat.lt_succ_self _
      · intro i hi
        cases hi
      · intro i hi
        rw [hlen] at hi
        rcases Nat.lt_succ_iff_lt_or_eq.mp hi with h | h
        · rw [hothrec i h]
          exact hIR i h
        · subst h
          rw [hselfrec]
          exact iff_of_false (by decide) (fun hm => absurd (hA _ hm) (lt_irrefl _))
      · intro i hi
        rw [hlen] at hi
        show runStateAt _ i = _ ↔ i ∈ st.pending_threads ++ [st.threads.length]
        rcases Nat.lt_succ_iff_lt_or_eq.mp hi with h | h
        · rw [hothrec i h, hIP i h]
          simp [List.mem_append, Nat.ne_of_lt h]
        · subst h
          rw [hselfrec]
          exact iff_of_true rfl (List.mem_append_right _ (List.mem_cons_self _ _))
      · intro i hi
        cases hi
      · show (st.pending_threads ++ [st.threads.length]).Nodup
        rw [List.nodup_append]
        refine ⟨hPnd, List.nodup_singleton _, ?_⟩
        intro a ha ha'
        rw [List.mem_singleton.mp ha'] at ha
        exact absurd (hP _ ha) (lt_irrefl _)
      · exact List.nodup_nil
      · exact hAE
      · exact hC
    · simp only [SpawnThreadWithID, hUL, if_neg hsp]
      exact ⟨hA, hP, hU, hIR, hIP, hUD, hPnd, hUnd, hAE, hC⟩
  · obtain ⟨htm, htdrop⟩ := getLast?_facts hUL hUnd
    have hbt : tid0 < st.threads.length := hU tid0 htm
    have hdead : runStateAt st tid0 = some ThreadState.DEAD := hUD tid0 htm
    have htnact : tid0 ∉ st.active_threads := by
      intro h
      have := (hIR tid0 hbt).mpr h
      rw [hdead] at this
      cases this
    have htnpend : tid0 ∉ st.pending_threads := by
      intro h
      have := (hIP tid0 hbt).mpr h
      rw [hdead] at this
      cases this
    simp only [SpawnThreadWithID, hUL]
    have hselfrec : runStateAt (commandeerThread clear initT st tid0 module_id p
        st.unused_threads.dropLast) tid0 = some ThreadState.PENDING := by
      show ((modifyAt _ tid0 st.threads)[tid0]?).map Thread.run_state = _
      rw [modifyAt_getElem?_self, List.getElem?_eq_getElem hbt]
      rfl
    have hothrec : ∀ i : Nat, i ≠ tid0 →
        runStateAt (commandeerThread clear initT st tid0 module_id p
          st.unused_threads.dropLast) i = runStateAt st i := by
      intro i hi
      show ((modifyAt _ tid0 st.threads)[i]?).map Thread.run_state = _
      rw [modifyAt_getElem?_ne _ hi]
      rfl
    have hlen : (commandeerThread clear initT st tid0 module_id p
        st.unused_threads.dropLast).threads.length = st.threads.length :=
      modifyAt_length _ _ _
    refine ⟨?_, ?_, ?_, ?_, ?_, ?_, ?_, ?_, ?_, ?_⟩
    · intro i hi
      rw [hlen]
      exact hA i hi
    · intro i hi
      rw [hlen]
      rcases List.mem_append.mp hi with h | h
      · exact hP i h
      · rw [List.mem_singleton.mp h]
        exact hbt
    · intro i hi
      rw [hlen]
      exact hU i ((List.dropLast_sublist _).subset hi)
    · intro i hi
      rw [hlen] at hi
      by_cases hit : i = tid0
      · subst hit
        rw [hselfrec]
        exact iff_of_false (by decide) htnact
      · rw [hothrec i hit]
        exact hIR i hi
    · intro i hi
      rw [hlen] at hi
      show runStateAt _ i = _ ↔ i ∈ st.pending_threads ++ [tid0]
      by_cases hit : i = tid0
      · subst hit
        rw [hselfrec]
        exact iff_of_true rfl (List.mem_append_right _ (List.mem_cons_self _ _))
      · rw [hothrec i hit, hIP i hi]
        simp [List.mem_append, hit]
    · intro i hi
      have hit : i ≠ tid0 := fun h => htdrop (h ▸ hi)
      rw [hothrec i hit]
      exact hUD i ((List.dropLast_sublist _).subset hi)
    · show (st.pending_threads ++ [tid0]).Nodup
      rw [List.nodup_append]
      refine ⟨hPnd, List.nodup_singleton _, ?_⟩
      intro a ha ha'
      rw [List.mem_singleton.mp ha'] at ha
      exact htnpend ha
    · exact hUnd.sublist (List.dropLast_sublist _)
    · exact hAE
    · exact hC

theorem WF_baseResetState (clear : E → E) (st : HostState E K) :
    WFHostState (BaseResetState clear st) := by
  have hlen : (BaseResetState clear st).threads.length = st.threads.length :=
    List.length_map _ _
  have hrec : ∀ i : Nat, i < st.threads.length →
      runStateAt (BaseResetState clear st) i = some ThreadState.DEAD := by
    intro i hi
    show ((st.threads.map (Thread.Reset clear))[i]?).map Thread.run_state = _
    rw [List.getElem?_map, List.getElem?_eq_getElem hi]
    rfl
  refine ⟨?_, ?_, ?_, ?_, ?_, ?_, ?_, ?_, ?_, ?_⟩
  · intro i hi
    exact absurd hi (Finset.not_mem_empty i)
  · intro i hi
    cases hi
  · intro i hi
    rw [hlen]
    exact List.mem_range.mp (List.mem_reverse.mp hi)
  · intro i hi
    rw [hlen] at hi
    rw [hrec i hi]
    exact iff_of_false (by decide) (Finset.not_mem_empty i)
  · intro i hi
    rw [hlen] at hi
    rw [hrec i hi]
    exact iff_of_false (by decide) (List.not_mem_nil i)
  · intro i hi
    exact hrec i (List.mem_range.mp (List.mem_reverse.mp hi))
  · exact List.nodup_nil
  · exact List.nodup_reverse.mpr (List.nodup_range _)
  · intro i hi
    exact absurd hi (Finset.not_mem_empty i)
  · show (∅ : Finset Nat).card ≤ st.max_active_threads
    rw [Finset.card_empty]
    exact Nat.zero_le _

/-- **C6 (amended).**  After every modelled operation (admission, spawning,
reset) the host maintains: RUNNING iff in the active set, PENDING iff in
the pending deque, all ids in bounds, every unused-stack id DEAD, nodup
stacks, active set inside the execution order and `|active| ≤ max_active`
— and consequently the active set, pending deque and unused stack are
pairwise disjoint.  The original DEAD clause does not hold: an id rejected
by admission is DEAD yet in no index structure until reset (see the
counterexample). -/
theorem invariant_maintained (clear : E → E) (initT : E → Nat → E) (e0 : E)
    (st : HostState E K) (module_id : Nat) (p : ℚ) (hW : WFHostState st) :
    WFHostState (activatePendingThreads st) ∧
    WFHostState (SpawnThreadWithID clear initT e0 st module_id p).2 ∧
    WFHostState (BaseResetState clear st) ∧
    (∀ i ∈ st.active_threads, i ∉ st.pending_threads) ∧
    (∀ i ∈ st.active_threads, i ∉ st.unused_threads) ∧
    (∀ i ∈ st.pending_threads, i ∉ st.unused_threads) ∧
    st.active_threads.card ≤ st.max_active_threads :=
  ⟨WF_activatePendingThreads st hW,
    WF_spawnThreadWithID clear initT e0 st module_id p hW,
    WF_baseResetState clear st,
    (WF_disjoint st hW).1, (WF_disjoint st hW).2.1, (WF_disjoint st hW).2.2,
    hW.2.2.2.2.2.2.2.2.2⟩

/-- **C6 counterexample.**  `tieState` satisfies the claimed invariant (and
is well formed), but after one admission round the rejected pending thread
1 is DEAD while in neither the unused stack nor the execution order: the
claimed invariant is not preserved by the admission controller. -/
theorem claimed_invariant_violated :
    ClaimedStateInvariant tieState ∧ WFHostState tieState ∧
    ¬ ClaimedStateInvariant (activatePendingThreads tieState) := by
  refine ⟨by decide, by decide, by decide⟩

/-- **C6 witness.** -/
theorem invariant_maintained_witness :
    WFHostState tieState ∧ WFHostState (activatePendingThreads tieState) :=
  ⟨by decide,
    (invariant_maintained (fun _ => 0) (fun e m => e + m) 0 tieState 0 1 (by decide)).1⟩

/-- **C1 witness.**  In scenario S4 the round reaches phase 2 and thread 1
(priority 3 ≥ P* = 2) is immune: it survives admission. -/
theorem admission_pstar_heap_immunity_witness :
    (afterPhase1 prioState).pending_threads ≠ [] ∧
    1 ∈ (activatePendingThreads prioState).active_threads := by
  refine ⟨by decide, ?_⟩
  have h := admission_pstar_heap_immunity (E := Nat) (K := Nat) prioState
    (by decide) (by decide) (by decide)
  exact (h.2.2.2 1 (by decide) (by decide)).1

/-- **C2 witness.**  In scenario S4 the heap is `[(1, 0)]`, pending head 2
has priority 2 > 1, so thread 0 is evicted and thread 2 activated. -/
theorem admission_eviction_tiebreak_witness :
    0 ∉ (activatePendingThreads prioState).active_threads ∧
    2 ∈ (activatePendingThreads prioState).active_threads := by
  have h := admission_eviction_tiebreak (E := Nat) (K := Nat) prioState 2 [] 1 0 []
    (by decide) (by decide) (by decide) (by decide) (by decide) (by decide)
  exact ⟨(h.2.1 (by decide)).1, (h.2.1 (by decide)).2.2.1⟩

/-- **C3 witness.**  With spare capacity the pending deque is drained and
appended in FIFO order to the execution order. -/
theorem admission_fast_path_witness :
    (activatePendingThreads fastState).pending_threads = [] ∧
    (activatePendingThreads fastState).thread_exec_order = [0, 1, 2] := by
  have h := admission_fast_path (E := Nat) (K := Nat) fastState
    (by decide) (by decide) (by decide) (by decide)
  refine ⟨h.1, ?_⟩
  rw [h.2.2.1]
  decide

/-- **C4 witness.**  Spawning on `spawnState` pops the top of the unused
stack (id 0) and appends it to the pending deque. -/
theorem spawnThreadWithID_spec_witness :
    (∀ i ∈ spawnState.unused_threads, i < spawnState.threads.length) ∧
    (SpawnThreadWithID (fun _ => 0) (fun e m => e + m) 0 spawnState 7 (3 / 2)).2.pending_threads
      = spawnState.pending_threads ++ [0] :=
  ⟨by decide,
    ((spawnThreadWithID_spec (K := Nat) (fun _ => 0) (fun e m => e + m) 0 spawnState 7 (3 / 2)
      (by decide)).2.2 0 (by decide)).1⟩

/-- **C5 witness.**  The active thread of `monoState` survives admission. -/
theorem admission_monotonicity_witness :
    0 ∈ (activatePendingThreads monoState).active_threads ∧
    (activatePendingThreads monoState).threads[0]? = monoState.threads[0]? :=
  admission_monotonicity (K := Nat) monoState (by decide) (by decide) 0 (by decide)

/-- **C8 witness.**  Resetting the idle demo state rebuilds the unused
stack as `[1, 0]` (lowest id on top). -/
theorem baseResetState_spec_witness :
    resetDemoState.is_executing = false ∧
    (BaseResetState (fun _ => 0) resetDemoState).unused_threads = [1, 0] := by
  refine ⟨by decide, ?_⟩
  have h := baseResetState_spec (K := Nat) (fun _ => 0) resetDemoState (by decide)
  rw [h.2.2.2.2.2.2.2.1]
  decide

end SignalGP
